import Mathlib

/-!
# Verification of the REInventory inventory mutation engine

A shallow embedding in Lean 4 of the core logic of the REInventory
repository: the currency ledger (`src/utils/currencyUtils.js`), the grid
placement engine (`src/utils/gridUtils.js`, modelled from the spec since the
file is absent from the sources), the drag/stack/purchase coordinator and the
other mutation handlers of `InventoryGrid.js`, the wallet edit dialog
(`Wallet.js`), and the trade handshake (`TradeNotifications.js`).

JavaScript numbers are modelled as `Int` (all quantities in play are exact
integers); JS objects holding item lists are modelled as association lists
preserving insertion order, matching `Object.values` enumeration order.
-/

namespace REInventory

/-- A wallet `{gp, sp, cp}` as stored on an inventory document. -/
structure Wallet where
  gp : Int
  sp : Int
  cp : Int
deriving DecidableEq, Repr

/-- `parseCostToCp`'s `RATES` table: 1 gp = 100 cp, 1 sp = 10 cp. -/
def rateGp : Int := 100

def rateSp : Int := 10

def rateCp : Int := 1

/-- `walletToCp` from `currencyUtils.js`: total copper value of a wallet. -/
def walletToCp (w : Wallet) : Int :=
  w.gp * 100 + w.sp * 10 + w.cp

/-- `deductCurrency` from `currencyUtils.js`.  Returns `none` when the
wallet's copper total is below the cost; otherwise re-expands the remainder
greedily into gp, then sp, then cp.  In the source the remainder is
re-expanded with `Math.floor` division and the JS `%` operator; on this
branch the remainder is non-negative, where Lean's `Int` `/` and `%`
(Euclidean) agree with both. -/
def deductCurrency (w : Wallet) (costInCp : Int) : Option Wallet :=
  let currentTotal := walletToCp w
  if currentTotal < costInCp then none
  else
    let remainingTotal := currentTotal - costInCp
    let newGp := remainingTotal / 100
    let rem1 := remainingTotal % 100
    let newSp := rem1 / 10
    let newCp := rem1 % 10
    some ⟨newGp, newSp, newCp⟩

/-- The whitespace class matched by the JS regex `\s` and by `String.trim`,
restricted to the ASCII range (cost strings are ASCII). -/
def jsIsSpace (c : Char) : Bool :=
  c = ' ' || c = '\t' || c = '\n' || c = '\r' || c = '\x0b' || c = '\x0c'

/-- `toLowerCase` applied character-wise (ASCII). -/
def jsToLower (c : Char) : Char := c.toLower

/-- Numeric value of a digit run, as `parseInt(ds, 10)` computes it. -/
def digitsToNat (ds : List Char) : Nat :=
  ds.foldl (fun n c => 10 * n + (c.toNat - '0'.toNat)) 0

/-- `trim`: drop leading and trailing whitespace. -/
def jsTrim (l : List Char) : List Char :=
  ((l.dropWhile jsIsSpace).reverse.dropWhile jsIsSpace).reverse

/-- One attempt of the regex `(\d+)\s*(gp|sp|cp)` anchored at the head of
`l`: a maximal non-empty digit run, then a maximal whitespace run, then one
of the three unit tokens.  Returns the parsed value and the rate for the
unit.  Maximal-munch is faithful to the regex here because neither a
whitespace character nor the first letter of a unit is a digit, and no unit
starts with whitespace. -/
def matchAt (l : List Char) : Option (Nat × Int) :=
  let ds := l.takeWhile Char.isDigit
  if ds.isEmpty then none
  else
    let rest := (l.drop ds.length).dropWhile jsIsSpace
    if rest.take 2 = ['g', 'p'] then some (digitsToNat ds, rateGp)
    else if rest.take 2 = ['s', 'p'] then some (digitsToNat ds, rateSp)
    else if rest.take 2 = ['c', 'p'] then some (digitsToNat ds, rateCp)
    else none

/-- The regex search `normalized.match(/(\d+)\s*(gp|sp|cp)/)`: try `matchAt`
at each successive start position, leftmost first. -/
def scanFirst : List Char → Option (Nat × Int)
  | [] => none
  | c :: cs =>
    match matchAt (c :: cs) with
    | some r => some r
    | none => scanFirst cs

/-- `costStr.toLowerCase().trim()` as a character list. -/
def normalizeCost (s : String) : List Char :=
  jsTrim (s.data.map jsToLower)

/-- `parseCostToCp` from `currencyUtils.js`.  `none` models an absent
(`undefined`) cost; the empty string is falsy in JS and also returns 0. -/
def parseCostToCp (costStr : Option String) : Int :=
  match costStr with
  | none => 0
  | some s =>
    if s = "" then 0
    else
      match scanFirst (normalizeCost s) with
      | none => 0
      | some (v, r) => (v : Int) * r

/-- An inventory item.  `pos` is `some (x, y)` only while the item is placed
in a grid; the JS `{x, y, ...rest}` destructuring that strips the position is
modelled by setting `pos := none`.  `quantity`, `w`, `h` are JS numbers,
modelled as `Int`. -/
structure Item where
  id : String
  name : String
  type : String
  w : Int
  h : Int
  pos : Option (Int × Int)
  stackable : Bool
  quantity : Int
  maxStack : Option Int
  cost : Option String
deriving DecidableEq, Repr

/-- Modelled from the spec: `gridUtils.js` is absent from the sources, so
`outOfBounds` follows §4.1: "false if `x<0 or y<0 or x+item.w>gridWidth or
y+item.h>gridHeight`" (the function is the out-of-bounds test itself, so it
is *true* in exactly those cases). -/
def outOfBounds (x y : Int) (item : Item) (gridWidth gridHeight : Nat) : Bool :=
  x < 0 || y < 0 || x + item.w > (gridWidth : Int) || y + item.h > (gridHeight : Int)

/-- Modelled from the spec: `fits` holds when the out-of-bounds check fails. -/
def fits (x y : Int) (item : Item) (gridWidth gridHeight : Nat) : Bool :=
  !(outOfBounds x y item gridWidth gridHeight)

/-- Modelled from the spec: `onOtherItem` is true when the rectangles
`[x, x+item.w) × [y, y+item.h)` and `[other.x, other.x+other.w) ×
[other.y, other.y+other.h)` intersect on both axes.  An `other` without a
position never collides (in JS every comparison against `undefined` is
false). -/
def onOtherItem (x y : Int) (item other : Item) : Bool :=
  match other.pos with
  | some (ox, oy) =>
    x < ox + other.w && ox < x + item.w && y < oy + other.h && oy < y + item.h
  | none => false

/-- A candidate origin at which the item lies in bounds and overlaps no
existing item. -/
def slotOk (existingItems : List Item) (item : Item) (gridWidth gridHeight : Nat)
    (x y : Int) : Bool :=
  fits x y item gridWidth gridHeight &&
    !(existingItems.any fun other => onOtherItem x y item other)

/-- First hit of `f` on the `count` naturals starting at `start`, in
increasing order. -/
def firstHit {α : Type} (f : Nat → Option α) : Nat → Nat → Option α
  | _, 0 => none
  | start, count + 1 =>
    match f start with
    | some a => some a
    | none => firstHit f (start + 1) count

/-- Modelled from the spec: `findFirstSlot` "scans candidate origins in
row-major order (y from 0, x from 0 within each row) and returns the first
`(x,y)` for which `fits` holds and no existing item `overlaps`; returns null
if no such cell exists." -/
def findFirstAvailableSlot (existingItems : List Item) (item : Item)
    (gridWidth gridHeight : Nat) : Option (Int × Int) :=
  firstHit
    (fun y =>
      firstHit
        (fun x =>
          if slotOk existingItems item gridWidth gridHeight (x : Int) (y : Int) then
            some ((x : Int), (y : Int))
          else none)
        0 gridWidth)
    0 gridHeight

/-- A container document: a grid plus (for DM-style owners) its own tray. -/
structure Container where
  id : String
  gridWidth : Nat
  gridHeight : Nat
  gridItems : List Item
  trayItems : List Item
deriving DecidableEq, Repr

/-- An inventory document for one owner. -/
structure Inventory where
  characterName : String
  isMerchant : Bool
  currency : Wallet
  trayItems : List Item
  equippedItems : List Item
  containers : List Container
deriving DecidableEq, Repr

/-- The client's `inventories` map, owner id to inventory, in enumeration
order. -/
abbrev Invs := List (String × Inventory)

def lookupA (invs : Invs) (pid : String) : Option Inventory :=
  (invs.find? fun p => p.1 == pid).map (·.2)

def modifyInv (invs : Invs) (pid : String) (f : Inventory → Inventory) : Invs :=
  invs.map fun p => if p.1 = pid then (p.1, f p.2) else p

def lookupC (cs : List Container) (cid : String) : Option Container :=
  cs.find? fun c => c.id == cid

def updateC (cs : List Container) (cid : String) (f : Container → Container) :
    List Container :=
  cs.map fun c => if c.id = cid then f c else c

def modifyContainer (inv : Inventory) (cid : String) (f : Container → Container) :
    Inventory :=
  { inv with containers := updateC inv.containers cid f }

def findItem (l : List Item) (iid : String) : Option Item :=
  l.find? fun i => i.id == iid

/-- `list.filter(i => i.id !== iid)`: removes every occurrence. -/
def removeAll (l : List Item) (iid : String) : List Item :=
  l.filter fun i => !(i.id == iid)

/-- `findIndex` + `splice(idx, 1)`: removes the first occurrence only. -/
def removeFirst : List Item → String → List Item
  | [], _ => []
  | i :: rest, iid => if i.id = iid then rest else i :: removeFirst rest iid

/-- `list.find(i => i.id === iid)` followed by a field mutation on the found
object: rewrites the first occurrence in place. -/
def updateFirst : List Item → String → (Item → Item) → List Item
  | [], _, _ => []
  | i :: rest, iid, f => if i.id = iid then f i :: rest else i :: updateFirst rest iid f

/-- `list.map(i => i.id === iid ? replacement : i)`: rewrites every
occurrence. -/
def replaceAll (l : List Item) (iid : String) (f : Item → Item) : List Item :=
  l.map fun i => if i.id = iid then f i else i

/-- JS `v || d` on a possibly-absent number: `undefined`, `NaN` and `0` are
falsy. -/
def jsOrInt : Option Int → Int → Int
  | some v, d => if v = 0 then d else v
  | none, d => d

/-- One field-merge write against a single Firestore document, with exactly
the fields the source passes to `update`/`setDoc` (a `none` field is not part
of the payload). -/
inductive DocWrite
  | currency (pid : String) (w : Wallet)
  | invFields (pid : String) (tray : Option (List Item)) (equipped : Option (List Item))
  | containerFields (pid cid : String) (grid : Option (List Item))
      (tray : Option (List Item))
deriving DecidableEq, Repr

/-- A persistence request as issued by a handler: either a lone
`updateDoc`/`setDoc`, or a `writeBatch(...).commit()` applying all its
writes atomically. -/
inductive Issued
  | single (wr : DocWrite)
  | batch (wrs : List DocWrite)
deriving DecidableEq, Repr

/-- How far a handler got. -/
inductive RunKind
  | noop
  | precondError
  | ran
deriving DecidableEq, Repr

/-- Outcome of one handler invocation.  `applied` is the local state right
after the handler's synchronous part (the optimistic apply, when the handler
performs one); `rolledBack` is the local state after the handler's failure
path runs, should the awaited persistence request fail; `surfaced` records
whether that failure path reports the failure to the user; `requests` are
the persistence requests issued, in order. -/
structure RunResult where
  kind : RunKind
  applied : Invs
  rolledBack : Invs
  surfaced : Bool
  requests : List Issued
deriving DecidableEq, Repr

/-- `handleEquipItem` from `InventoryGrid.js`: remove the item from its grid
container (`source === 'grid'`) or the floor tray, append it to
`equippedItems` stripped of its position, apply optimistically, then commit a
batch; the catch restores the original inventories and reports the
failure. -/
def handleEquipItemRun (invs : Invs) (item : Item) (playerId source containerId : String) :
    RunResult :=
  match lookupA invs playerId with
  | none => RunResult.mk .noop invs invs false []
  | some playerInv =>
    let removed : Option Invs :=
      if source = "grid" then
        match lookupC playerInv.containers containerId with
        | none => none
        | some c =>
          match findItem c.gridItems item.id with
          | none => none
          | some _ =>
            some (modifyInv invs playerId fun inv =>
              modifyContainer inv containerId fun c =>
                { c with gridItems := removeFirst c.gridItems item.id })
      else
        match findItem playerInv.trayItems item.id with
        | none => none
        | some _ =>
          some (modifyInv invs playerId fun inv =>
            { inv with trayItems := removeFirst inv.trayItems item.id })
    match removed with
    | none => RunResult.mk .precondError invs invs false []
    | some invs1 =>
      let equippedItem := { item with pos := none }
      let invs2 := modifyInv invs1 playerId fun inv =>
        { inv with equippedItems := inv.equippedItems ++ [equippedItem] }
      let newInv := (lookupA invs2 playerId).getD playerInv
      let locWrite :=
        if source = "grid" then
          match lookupC newInv.containers containerId with
          | some c => DocWrite.containerFields playerId containerId (some c.gridItems) none
          | none => DocWrite.containerFields playerId containerId none none
        else DocWrite.invFields playerId (some newInv.trayItems) none
      RunResult.mk .ran invs2 invs true
        [Issued.batch [locWrite, DocWrite.invFields playerId none (some newInv.equippedItems)]]

/-- The `for (const container of Object.values(playerInv.containers))` loop
of `handleUnequipItem`: place the item in the first container with a free
slot, breaking out of the loop on success. -/
def placeInFirstContainer (cs : List Container) (it : Item) : Option (List Container) :=
  match cs with
  | [] => none
  | c :: rest =>
    match findFirstAvailableSlot c.gridItems it c.gridWidth c.gridHeight with
    | some p => some ({ c with gridItems := c.gridItems ++ [{ it with pos := some p }] } :: rest)
    | none => (placeInFirstContainer rest it).map (c :: ·)

/-- `handleUnequipItem` from `InventoryGrid.js`: remove from the equipped
list, place into the first container with a free slot or fall back to the
floor tray, apply optimistically, commit a batch; the catch restores the
original inventories and reports the failure. -/
def handleUnequipItemRun (invs : Invs) (item : Item) (playerId : String) : RunResult :=
  match lookupA invs playerId with
  | none => RunResult.mk .noop invs invs false []
  | some playerInv =>
    match findItem playerInv.equippedItems item.id with
    | none => RunResult.mk .precondError invs invs false []
    | some _ =>
      let equipped1 := removeFirst playerInv.equippedItems item.id
      let itemToPlace := { item with pos := none }
      let (containers1, placed) :=
        match placeInFirstContainer playerInv.containers itemToPlace with
        | some cs => (cs, true)
        | none => (playerInv.containers, false)
      let tray1 := if placed then playerInv.trayItems else playerInv.trayItems ++ [itemToPlace]
      let invs2 := modifyInv invs playerId fun inv =>
        { inv with equippedItems := equipped1, containers := containers1, trayItems := tray1 }
      RunResult.mk .ran invs2 invs true
        [Issued.batch
          (DocWrite.invFields playerId (some tray1) (some equipped1) ::
            containers1.map fun c =>
              DocWrite.containerFields playerId c.id (some c.gridItems) none)]

/-- `handleSplitStack` from `InventoryGrid.js`: carve `amount` off a stack
into a fresh item (new id), place the new item via the placement engine or
fall back to the container's tray.  There is no optimistic apply and the
lone `updateDoc` is awaited without a catch, so a persistence failure leaves
the local state untouched and is not reported. -/
def handleSplitStackRun (invs : Invs) (originalItem : Item) (playerId containerId : String)
    (amount : Int) (newId : String) : RunResult :=
  if amount ≤ 0 ∨ originalItem.quantity ≤ amount then RunResult.mk .noop invs invs false []
  else
    match lookupA invs playerId with
    | none => RunResult.mk .noop invs invs false []
    | some playerInv =>
      match lookupC playerInv.containers containerId with
      | none => RunResult.mk .noop invs invs false []
      | some container =>
        let updatedOriginalItem := { originalItem with quantity := originalItem.quantity - amount }
        let newItem := { originalItem with id := newId, quantity := amount }
        let itemsForCollisionCheck :=
          replaceAll container.gridItems originalItem.id (fun _ => updatedOriginalItem)
        let availableSlot :=
          findFirstAvailableSlot itemsForCollisionCheck newItem container.gridWidth
            container.gridHeight
        let (gridItems1, trayItems1) :=
          match availableSlot with
          | some p => (itemsForCollisionCheck ++ [{ newItem with pos := some p }], container.trayItems)
          | none => (itemsForCollisionCheck, container.trayItems ++ [{ newItem with pos := none }])
        let originalItemInGrid := container.gridItems.any fun i => i.id == originalItem.id
        let (finalGridItems, finalTrayItems) :=
          if originalItemInGrid then
            (replaceAll gridItems1 originalItem.id (fun _ => updatedOriginalItem), trayItems1)
          else
            (gridItems1, replaceAll trayItems1 originalItem.id (fun _ => updatedOriginalItem))
        RunResult.mk .ran invs invs false
          [Issued.single
            (DocWrite.containerFields playerId containerId (some finalGridItems)
              (some finalTrayItems))]

/-- `handleRotateItem` from `InventoryGrid.js`: swap `w` and `h`, keep the
item in place when the rotated footprint still fits, otherwise re-place it
via the placement engine or demote it to the floor tray.  The handler never
calls `setInventoriesOptimistic` and awaits its batch without a catch, so
the local state is unchanged by the handler itself and a persistence
failure is not reported.  (When the item carries no position the JS
bounds/overlap comparisons against `undefined` are all false, so the item
"can stay"; the `none` branch mirrors that.) -/
def handleRotateItemRun (invs : Invs) (item : Item) (playerId containerId : String) :
    RunResult :=
  match lookupA invs playerId with
  | none => RunResult.mk .noop invs invs false []
  | some inventory =>
    match lookupC inventory.containers containerId with
    | none => RunResult.mk .noop invs invs false []
    | some container =>
      let rotatedItem := { item with w := item.h, h := item.w }
      let otherItems := removeAll container.gridItems item.id
      let canStayInPlace :=
        match rotatedItem.pos with
        | some (x, y) =>
          !(outOfBounds x y rotatedItem container.gridWidth container.gridHeight) &&
            !(otherItems.any fun other => onOtherItem x y rotatedItem other)
        | none => true
      let (inv1 : Inventory) :=
        if canStayInPlace then
          modifyContainer inventory containerId fun c =>
            { c with gridItems := replaceAll c.gridItems item.id (fun _ => rotatedItem) }
        else
          match findFirstAvailableSlot otherItems rotatedItem container.gridWidth
              container.gridHeight with
          | some p =>
            modifyContainer inventory containerId fun _ =>
              { container with gridItems := otherItems ++ [{ rotatedItem with pos := some p }] }
          | none =>
            let inv' := modifyContainer inventory containerId fun _ =>
              { container with gridItems := otherItems }
            { inv' with trayItems := inv'.trayItems ++ [{ rotatedItem with pos := none }] }
      RunResult.mk .ran invs invs false
        [Issued.batch
          (DocWrite.invFields playerId (some inv1.trayItems) none ::
            inv1.containers.map fun c =>
              DocWrite.containerFields playerId c.id (some c.gridItems) (some c.trayItems))]

/-- `handleDuplicateItem` from `InventoryGrid.js`: clone the item with a
fresh id into the owner's tray (for the DM: the first container's tray),
apply optimistically, write one document; the catch restores the original
inventories and reports the failure. -/
def handleDuplicateItemRun (invs : Invs) (item : Item) (playerId : String)
    (isPlayerDM : Bool) (newId : String) : RunResult :=
  match lookupA invs playerId with
  | none => RunResult.mk .noop invs invs false []
  | some playerInv =>
    let newItem := { item with pos := none, id := newId }
    if isPlayerDM then
      match playerInv.containers with
      | [] => RunResult.mk .precondError invs invs false []
      | c0 :: rest =>
        let c1 := { c0 with trayItems := c0.trayItems ++ [newItem] }
        let invs2 := modifyInv invs playerId fun inv => { inv with containers := c1 :: rest }
        RunResult.mk .ran invs2 invs true
          [Issued.single (DocWrite.containerFields playerId c1.id none (some c1.trayItems))]
    else
      let tray1 := playerInv.trayItems ++ [newItem]
      let invs2 := modifyInv invs playerId fun inv => { inv with trayItems := tray1 }
      RunResult.mk .ran invs2 invs true
        [Issued.single (DocWrite.invFields playerId (some tray1) none)]

/-- The item-creation branch of `handleAddItem` from `InventoryGrid.js`:
append the new item to the target's tray (for a DM target: the first
container's tray), apply optimistically, write one document; the catch
restores the original inventories and reports the failure. -/
def handleAddItemCreateRun (invs : Invs) (itemData : Item) (finalPlayerId : String)
    (isTargetDM : Bool) : RunResult :=
  match lookupA invs finalPlayerId with
  | none => RunResult.mk .noop invs invs false []
  | some targetInv =>
    if isTargetDM then
      match targetInv.containers with
      | [] => RunResult.mk .precondError invs invs false []
      | c0 :: rest =>
        let c1 := { c0 with trayItems := c0.trayItems ++ [itemData] }
        let invs2 := modifyInv invs finalPlayerId fun inv => { inv with containers := c1 :: rest }
        RunResult.mk .ran invs2 invs true
          [Issued.single (DocWrite.containerFields finalPlayerId c1.id none (some c1.trayItems))]
    else
      let tray1 := targetInv.trayItems ++ [itemData]
      let invs2 := modifyInv invs finalPlayerId fun inv => { inv with trayItems := tray1 }
      RunResult.mk .ran invs2 invs true
        [Issued.single (DocWrite.invFields finalPlayerId (some tray1) none)]

/-- `handleSendItem` from `InventoryGrid.js`: filter the item out of every
list of the source inventory, append it (stripped of position) to the
target's tray, apply optimistically, commit a batch over both owners; the
catch restores the original inventories and reports the failure. -/
def handleSendItemRun (invs : Invs) (item : Item) (sourcePlayerId targetPlayerId : String) :
    RunResult :=
  match lookupA invs sourcePlayerId, lookupA invs targetPlayerId with
  | some _, some _ =>
    let invs1 := modifyInv invs sourcePlayerId fun inv =>
      { inv with
        equippedItems := removeAll inv.equippedItems item.id
        trayItems := removeAll inv.trayItems item.id
        containers := inv.containers.map fun c =>
          { c with
            gridItems := removeAll c.gridItems item.id
            trayItems := removeAll c.trayItems item.id } }
    let itemForTray := { item with pos := none }
    let invs2 := modifyInv invs1 targetPlayerId fun inv =>
      { inv with trayItems := inv.trayItems ++ [itemForTray] }
    let srcWrites :=
      match lookupA invs2 sourcePlayerId with
      | none => []
      | some src =>
        DocWrite.invFields sourcePlayerId (some src.trayItems) (some src.equippedItems) ::
          src.containers.map fun c =>
            DocWrite.containerFields sourcePlayerId c.id (some c.gridItems) (some c.trayItems)
    let tgtWrites :=
      match lookupA invs2 targetPlayerId with
      | none => []
      | some tgt =>
        [DocWrite.invFields targetPlayerId (some tgt.trayItems) (some tgt.equippedItems)]
    RunResult.mk .ran invs2 invs true [Issued.batch (srcWrites ++ tgtWrites)]
  | _, _ => RunResult.mk .precondError invs invs false []

/-- Arguments of one `handleDragEnd` invocation, as extracted from the
dnd-kit event: the dragged item and its source descriptor, the destination
descriptor, the item dropped onto (if any), the grid cell computed from the
pointer position (`dropPos`, abstracting the pixel geometry), and whether
the viewing user is the DM. -/
structure DragArgs where
  item : Item
  startPlayerId : String
  startContainerId : String
  startSource : String
  endPlayerId : String
  endContainerId : String
  endDestination : String
  overItem : Option Item
  dropPos : Int × Int
  viewerIsDM : Bool
deriving DecidableEq, Repr

/-- The stacking guard of `handleDragEnd` (line `if (item && passiveItem &&
item.id !== passiveItem.id && passiveItem.stackable && item.name ===
passiveItem.name && item.type === passiveItem.type)`).  Note only the
*target* item's `stackable` flag is consulted. -/
def stackMergeCheck (item : Item) (overItem : Option Item) : Option Item :=
  match overItem with
  | some passive =>
    if item.id ≠ passive.id ∧ passive.stackable ∧ item.name = passive.name ∧
        item.type = passive.type then
      some passive
    else none
  | none => none

/-- Target-side update of the stacking branch: grid items of the end
container when the drop target sits in a grid, the end container's tray for
a DM owner, the inventory tray otherwise. -/
def stackApplyToEnd (invs : Invs) (endPlayerId endContainerId endDestination : String)
    (f : List Item → List Item) : Invs :=
  modifyInv invs endPlayerId fun inv =>
    if endDestination = "grid" then
      modifyContainer inv endContainerId fun c => { c with gridItems := f c.gridItems }
    else if inv.characterName = "DM" then
      modifyContainer inv endContainerId fun c => { c with trayItems := f c.trayItems }
    else { inv with trayItems := f inv.trayItems }

/-- Source-side update of the stacking branch, mirroring
`stackApplyToEnd`'s location dispatch for the drag source. -/
def stackApplyToStart (invs : Invs) (startPlayerId startContainerId startSource : String)
    (f : List Item → List Item) : Invs :=
  modifyInv invs startPlayerId fun inv =>
    if startSource = "grid" then
      modifyContainer inv startContainerId fun c => { c with gridItems := f c.gridItems }
    else if inv.characterName = "DM" then
      modifyContainer inv startContainerId fun c => { c with trayItems := f c.trayItems }
    else { inv with trayItems := f inv.trayItems }

/-- The per-owner writes of the stacking branch's batch: the inventory
document's `trayItems` field, then `{gridItems, trayItems}` for each of the
owner's containers. -/
def docWritesStack (invs : Invs) (pid : String) : List DocWrite :=
  match lookupA invs pid with
  | none => []
  | some inv =>
    DocWrite.invFields pid (some inv.trayItems) none ::
      inv.containers.map fun c =>
        DocWrite.containerFields pid c.id (some c.gridItems) (some c.trayItems)

/-- The stacking branch of `handleDragEnd`: compute the transferable amount
against the target stack's remaining room (`maxStack || 20`), fail with
"Stack is already full" when nothing fits, otherwise add to the target
stack and shrink or delete the source stack, apply optimistically and
commit one batch; the catch restores the original inventories and reports
the failure. -/
def stackBranch (invs : Invs) (a : DragArgs) (passive : Item) : RunResult :=
  let maxStack := jsOrInt passive.maxStack 20
  let roomInStack := maxStack - passive.quantity
  let amountToTransfer := min a.item.quantity roomInStack
  if amountToTransfer ≤ 0 then RunResult.mk .precondError invs invs false []
  else
    let remainingQuantity := a.item.quantity - amountToTransfer
    let invs1 := stackApplyToEnd invs a.endPlayerId a.endContainerId a.endDestination
      fun l => updateFirst l passive.id fun i => { i with quantity := i.quantity + amountToTransfer }
    let invs2 :=
      if remainingQuantity ≤ 0 then
        stackApplyToStart invs1 a.startPlayerId a.startContainerId a.startSource
          fun l => removeAll l a.item.id
      else
        stackApplyToStart invs1 a.startPlayerId a.startContainerId a.startSource
          fun l => updateFirst l a.item.id fun i => { i with quantity := remainingQuantity }
    RunResult.mk .ran invs2 invs true
      [Issued.batch
        (docWritesStack invs2 a.startPlayerId ++
          (if a.startPlayerId = a.endPlayerId then []
           else docWritesStack invs2 a.endPlayerId))]

/-- The merchant purchase gate of `handleDragEnd` ("MERCHANT LOGIC").  When
the drag source inventory is a merchant and the destination belongs to a
different owner, parse the item's cost; for a positive cost attempt the
deduction against the destination owner's wallet: `none` means the drag is
aborted ("You cannot afford this item!"), otherwise the new wallet is
written immediately via `updateCurrency` as its own single-document request,
independent of the item batch issued later. -/
def purchaseGate (invs : Invs) (a : DragArgs) : Option (List Issued) :=
  match lookupA invs a.startPlayerId with
  | some sourceInv =>
    if sourceInv.isMerchant ∧ a.startPlayerId ≠ a.endPlayerId then
      let costInCp := parseCostToCp a.item.cost
      let playerWallet := ((lookupA invs a.endPlayerId).map (·.currency)).getD ⟨0, 0, 0⟩
      if 0 < costInCp then
        match deductCurrency playerWallet costInCp with
        | none => none
        | some newWallet => some [Issued.single (DocWrite.currency a.endPlayerId newWallet)]
      else some []
    else some []
  | none => some []

/-- Removal phase of `handleDragEnd`'s move: take the dragged item out of
its start location (grid container, equipped list, or tray — the DM's tray
living on a container), returning the removed element and the updated
state, or `none` when the location or item is missing (the handler then
returns silently). -/
def removeFromStart (invs : Invs) (a : DragArgs) : Option (Item × Invs) :=
  match lookupA invs a.startPlayerId with
  | none => none
  | some startInv =>
    if a.startSource = "grid" then
      match lookupC startInv.containers a.startContainerId with
      | none => none
      | some c =>
        (findItem c.gridItems a.item.id).map fun it =>
          (it, modifyInv invs a.startPlayerId fun inv =>
            modifyContainer inv a.startContainerId fun c =>
              { c with gridItems := removeFirst c.gridItems a.item.id })
    else if a.startSource = "equipped" then
      (findItem startInv.equippedItems a.item.id).map fun it =>
        (it, modifyInv invs a.startPlayerId fun inv =>
          { inv with equippedItems := removeFirst inv.equippedItems a.item.id })
    else if startInv.characterName = "DM" then
      match lookupC startInv.containers a.startContainerId with
      | none => none
      | some c =>
        (findItem c.trayItems a.item.id).map fun it =>
          (it, modifyInv invs a.startPlayerId fun inv =>
            modifyContainer inv a.startContainerId fun c =>
              { c with trayItems := removeFirst c.trayItems a.item.id })
    else
      (findItem startInv.trayItems a.item.id).map fun it =>
        (it, modifyInv invs a.startPlayerId fun inv =>
          { inv with trayItems := removeFirst inv.trayItems a.item.id })

/-- The "No space in destination!" fallback of `handleDragEnd`: push the
removed item (position fields intact) back onto the drag source's tray. -/
def pushBackToSourceTray (invs : Invs) (a : DragArgs) (movedItem : Item) : Invs :=
  modifyInv invs a.startPlayerId fun inv =>
    if inv.characterName = "DM" then
      modifyContainer inv a.startContainerId fun c =>
        { c with trayItems := c.trayItems ++ [movedItem] }
    else { inv with trayItems := inv.trayItems ++ [movedItem] }

/-- Placement phase of `handleDragEnd`'s move: drop into the end grid at the
pointer cell when it is free, else at the first available slot, else push
the item back onto the source tray; non-grid destinations append the item,
stripped of position, to the equipped list, a DM container tray, or the
inventory tray.  `none` when a required container is missing (silent
return). -/
def placeAtEnd (invs : Invs) (a : DragArgs) (movedItem : Item) : Option Invs :=
  if a.endDestination = "grid" then
    match lookupA invs a.endPlayerId with
    | none => none
    | some endInv =>
      match lookupC endInv.containers a.endContainerId with
      | none => none
      | some endContainer =>
        let finalPos :=
          if outOfBounds a.dropPos.1 a.dropPos.2 movedItem endContainer.gridWidth
              endContainer.gridHeight ||
              endContainer.gridItems.any fun other =>
                onOtherItem a.dropPos.1 a.dropPos.2 movedItem other then
            findFirstAvailableSlot endContainer.gridItems movedItem endContainer.gridWidth
              endContainer.gridHeight
          else some a.dropPos
        match finalPos with
        | some p =>
          some (modifyInv invs a.endPlayerId fun inv =>
            modifyContainer inv a.endContainerId fun c =>
              { c with gridItems := c.gridItems ++ [{ movedItem with pos := some p }] })
        | none => some (pushBackToSourceTray invs a movedItem)
  else
    let trayItem := { movedItem with pos := none }
    if a.endDestination = "equipped" then
      some (modifyInv invs a.endPlayerId fun inv =>
        { inv with equippedItems := inv.equippedItems ++ [trayItem] })
    else
      match lookupA invs a.endPlayerId with
      | none => none
      | some endInv =>
        if endInv.characterName = "DM" then
          match lookupC endInv.containers a.endContainerId with
          | none => none
          | some _ =>
            some (modifyInv invs a.endPlayerId fun inv =>
              modifyContainer inv a.endContainerId fun c =>
                { c with trayItems := c.trayItems ++ [trayItem] })
        else
          some (modifyInv invs a.endPlayerId fun inv =>
            { inv with trayItems := inv.trayItems ++ [trayItem] })

/-- The per-owner writes of the move batch: the inventory document's
`{trayItems, equippedItems}`, then `{gridItems, trayItems}` for each
container. -/
def docWritesMove (invs : Invs) (pid : String) : List DocWrite :=
  match lookupA invs pid with
  | none => []
  | some inv =>
    DocWrite.invFields pid (some inv.trayItems) (some inv.equippedItems) ::
      inv.containers.map fun c =>
        DocWrite.containerFields pid c.id (some c.gridItems) (some c.trayItems)

/-- The move phase of `handleDragEnd`: the loot-pile permission guard, the
removal, the placement, the optimistic apply and the batched writes over
the source (and, cross-owner, the destination) documents; the catch
restores the original inventories and reports the failure.  `walletReqs`
are the requests already issued by the purchase gate. -/
def moveBranch (invs : Invs) (a : DragArgs) (walletReqs : List Issued) : RunResult :=
  match lookupA invs a.startPlayerId, lookupA invs a.endPlayerId with
  | some _, some _ =>
    if a.endPlayerId = "public-loot" ∧ ¬a.viewerIsDM then
      RunResult.mk .precondError invs invs false walletReqs
    else
      match removeFromStart invs a with
      | none => RunResult.mk .noop invs invs false walletReqs
      | some (movedItem, invs1) =>
        match placeAtEnd invs1 a movedItem with
        | none => RunResult.mk .noop invs invs false walletReqs
        | some invs2 =>
          RunResult.mk .ran invs2 invs true
            (walletReqs ++
              [Issued.batch
                (docWritesMove invs2 a.startPlayerId ++
                  (if a.startPlayerId = a.endPlayerId then []
                   else docWritesMove invs2 a.endPlayerId))])
  | _, _ => RunResult.mk .noop invs invs false walletReqs

/-- `handleDragEnd` from `InventoryGrid.js`: the stacking branch when the
drop lands on a mergeable stack, otherwise the merchant purchase gate
followed by the move itself. -/
def handleDragEndRun (invs : Invs) (a : DragArgs) : RunResult :=
  match stackMergeCheck a.item a.overItem with
  | some passive => stackBranch invs a passive
  | none =>
    match purchaseGate invs a with
    | none => RunResult.mk .precondError invs invs false []
    | some walletReqs => moveBranch invs a walletReqs

/-- `handleSave` from the Wallet dialog: a direct owner edit of the wallet.
Negative values are rejected ("Currency cannot be negative") before
`updateCurrency` is called; otherwise the entered values are persisted. -/
def handleSaveWallet (gp sp cp : Int) : Option Wallet :=
  if gp < 0 ∨ sp < 0 ∨ cp < 0 then none else some ⟨gp, sp, cp⟩

/-- Trade lifecycle states that are stored on a trade record.  Declining is
realized as deletion of the record, not as a stored state. -/
inductive TradeStatus
  | pending
  | active
deriving DecidableEq, Repr

/-- A trade record: initiator `playerA`, invitee `playerB`. -/
structure Trade where
  id : String
  campaignId : String
  playerA : String
  playerB : String
  status : TradeStatus
deriving DecidableEq, Repr

abbrev Trades := List Trade

/-- The two intents `TradeNotifications` can emit for a trade record. -/
inductive TradeAction
  | accept (uid tid : String)
  | decline (uid tid : String)
deriving DecidableEq, Repr

/-- The guard under which `TradeNotifications` offers the Accept/Decline
buttons at all: the record is `pending` and the acting user is its
addressed invitee (`trade.status === 'pending' && trade.playerB ===
auth.currentUser.uid`). -/
def tradeActionable (ts : Trades) (uid tid : String) : Option Trade :=
  match ts.find? fun t => t.id == tid with
  | some t => if t.status = .pending ∧ t.playerB = uid then some t else none
  | none => none

/-- The trade-record transitions performed by `TradeNotifications`:
`handleAccept` sets the record's status to `active`
(`updateDoc(tradeDocRef, { status: 'active' })`), `handleDecline` deletes
the record (`deleteDoc(tradeDocRef)`); both are reachable only through the
guarded notification. -/
def tradeStep (ts : Trades) : TradeAction → Option Trades
  | .accept uid tid =>
    (tradeActionable ts uid tid).map fun _ =>
      ts.map fun t => if t.id = tid then { t with status := .active } else t
  | .decline uid tid =>
    (tradeActionable ts uid tid).map fun _ =>
      ts.filter fun t => !(t.id == tid)

/-- Remote effect of one document write: merge the present fields into the
addressed document. -/
def applyDocWrite (invs : Invs) : DocWrite → Invs
  | .currency pid w => modifyInv invs pid fun inv => { inv with currency := w }
  | .invFields pid tray equipped =>
    modifyInv invs pid fun inv =>
      { inv with
        trayItems := tray.getD inv.trayItems
        equippedItems := equipped.getD inv.equippedItems }
  | .containerFields pid cid grid tray =>
    modifyInv invs pid fun inv =>
      modifyContainer inv cid fun c =>
        { c with gridItems := grid.getD c.gridItems, trayItems := tray.getD c.trayItems }

/-- Remote effect of one issued request: a failed request changes nothing, a
successful batch applies all its writes atomically. -/
def applyIssued (invs : Invs) (ok : Bool) : Issued → Invs
  | .single wr => if ok then applyDocWrite invs wr else invs
  | .batch wrs => if ok then wrs.foldl applyDocWrite invs else invs

/-- Remote state after the issued requests resolve with the given
per-request outcomes (requests are independent: each succeeds or fails on
its own). -/
def applyRequests : Invs → List Issued → List Bool → Invs
  | invs, [], _ => invs
  | invs, _ :: _, [] => invs
  | invs, r :: rs, ok :: oks => applyRequests (applyIssued invs ok r) rs oks

/-- The wallets carried by a document write (used to audit which wallet
values an operation can ever persist). -/
def docWriteWallets : DocWrite → List Wallet
  | .currency _ w => [w]
  | .invFields _ _ _ => []
  | .containerFields _ _ _ _ => []

def issuedWallets : Issued → List Wallet
  | .single wr => docWriteWallets wr
  | .batch wrs => (wrs.map docWriteWallets).flatten

def requestsWallets (rs : List Issued) : List Wallet :=
  (rs.map issuedWallets).flatten

/-- "Adding `cost` back in copper": the round-trip operation named by the
spec's value-preservation property — the cost is returned into the wallet's
copper slot. -/
def addCp (w : Wallet) (c : Int) : Wallet :=
  { w with cp := w.cp + c }

/-- The 1×1 item occupying the origin cell of the claim's 2×2 scenario. -/
def c1occupied : Item :=
  ⟨"occ", "Occupier", "misc", 1, 1, some (0, 0), false, 1, none, none⟩

/-- The 1×1 item searched for in the claim's 2×2 scenario. -/
def c1probe : Item :=
  ⟨"probe", "Probe", "misc", 1, 1, none, false, 1, none, none⟩

/-- A decomposition of `l` witnessing an occurrence of the pattern
`(\d+)\s*(gp|sp|cp)`: some prefix, a non-empty digit run, optional
whitespace, a unit token, and the remainder. -/
def HasCostToken (l : List Char) : Prop :=
  ∃ pre ds ws u rest, l = pre ++ ds ++ ws ++ u ++ rest ∧ ds ≠ [] ∧
    (∀ c ∈ ds, c.isDigit = true) ∧ (∀ c ∈ ws, jsIsSpace c = true) ∧
    (u = ['g', 'p'] ∨ u = ['s', 'p'] ∨ u = ['c', 'p'])

/-- C4 counterexample: a rotate operation that reaches persistence (it
issues a write request) performs no optimistic apply, and its persistence
failure is not surfaced — `handleRotateItem` has no catch and never calls
`setInventoriesOptimistic`, contradicting the claim for the rotate
operation. -/
def c4item : Item :=
  ⟨"it1", "Halberd", "weapon", 2, 1, some (0, 0), false, 1, none, none⟩

def c4invs : Invs :=
  [("p1",
    ⟨"Radagast", false, ⟨0, 0, 0⟩, [], [],
      [⟨"bag", 2, 2, [c4item], []⟩]⟩)]

/-- The sword offered by the merchant in the purchase scenario. -/
def c3sword : Item :=
  ⟨"sword", "Short Sword", "weapon", 1, 1, none, false, 1, none, some "5 sp"⟩

def c3invs : Invs :=
  [("m", ⟨"Merchant", true, ⟨100, 0, 0⟩, [c3sword], [], []⟩),
   ("b", ⟨"Bilbo", false, ⟨1, 0, 0⟩, [], [], []⟩)]

def c3args : DragArgs :=
  ⟨c3sword, "m", "tray", "tray", "b", "tray", "tray", none, (0, 0), false⟩

def c3run : RunResult := handleDragEndRun c3invs c3args

/-- The remote state when the lone wallet write succeeds but the item batch
fails. -/
def c3remote : Invs := applyRequests c3invs c3run.requests [true, false]

def c10item : Item :=
  ⟨"apple", "Apple", "food", 1, 1, none, false, 1, none, none⟩

def c10invs : Invs :=
  [("m", ⟨"Merchant", true, ⟨9, 9, 9⟩, [c10item], [], []⟩),
   ("b", ⟨"Bilbo", false, ⟨0, 0, 0⟩, [], [], []⟩)]

def c10args : DragArgs :=
  ⟨c10item, "m", "tray", "tray", "b", "tray", "tray", none, (0, 0), false⟩

def c10invs1 : Invs :=
  [("m", ⟨"Merchant", true, ⟨9, 9, 9⟩, [], [], []⟩),
   ("b", ⟨"Bilbo", false, ⟨0, 0, 0⟩, [], [], []⟩)]

def c10invs2 : Invs :=
  [("m", ⟨"Merchant", true, ⟨9, 9, 9⟩, [], [], []⟩),
   ("b", ⟨"Bilbo", false, ⟨0, 0, 0⟩, [c10item], [], []⟩)]

/-- The item list addressed by the stacking branch's location dispatch: the
grid of container `cid` for a grid location, the tray of container `cid`
for a DM owner, the inventory tray otherwise. -/
def stackLocList (invs : Invs) (pid cid dest : String) : Option (List Item) :=
  (lookupA invs pid).bind fun inv =>
    if dest = "grid" then (lookupC inv.containers cid).map (·.gridItems)
    else if inv.characterName = "DM" then (lookupC inv.containers cid).map (·.trayItems)
    else some inv.trayItems

/-- The item with id `iid` at a stacking-branch location. -/
def findAtLoc (invs : Invs) (pid cid dest iid : String) : Option Item :=
  (stackLocList invs pid cid dest).bind fun l => findItem l iid

/-- The amount the stacking branch transfers:
`min(source.quantity, (maxStack || 20) - target.quantity)`. -/
def stackAmount (item passive : Item) : Int :=
  min item.quantity (jsOrInt passive.maxStack 20 - passive.quantity)

def c2src : Item :=
  ⟨"i1", "Arrow", "ammo", 1, 1, none, false, 3, none, none⟩

def c2tgt : Item :=
  ⟨"i2", "Arrow", "ammo", 1, 1, none, true, 5, none, none⟩

def c2invs : Invs :=
  [("p1", ⟨"Ana", false, ⟨0, 0, 0⟩, [c2src], [], []⟩),
   ("p2", ⟨"Bo", false, ⟨0, 0, 0⟩, [c2tgt], [], []⟩)]

def c2args : DragArgs :=
  ⟨c2src, "p1", "tray", "tray", "p2", "tray", "tray", some c2tgt, (0, 0), false⟩

theorem deductCurrency_def (w : Wallet) (c : Int) :
    deductCurrency w c =
      if walletToCp w < c then none
      else some ⟨(walletToCp w - c) / 100, ((walletToCp w - c) % 100) / 10,
        ((walletToCp w - c) % 100) % 10⟩ := rfl

theorem deductCurrency_eq_none_iff (w : Wallet) (c : Int) :
    deductCurrency w c = none ↔ walletToCp w < c := by
  rw [deductCurrency_def]
  split <;> simp_all

theorem deductCurrency_eq_some (w : Wallet) (c : Int) (h : ¬ walletToCp w < c) :
    deductCurrency w c =
      some ⟨(walletToCp w - c) / 100, ((walletToCp w - c) % 100) / 10,
        ((walletToCp w - c) % 100) % 10⟩ := by
  rw [deductCurrency_def, if_neg h]

theorem walletToCp_deduct (w : Wallet) (c : Int) (h : ¬ walletToCp w < c) :
    ∃ w', deductCurrency w c = some w' ∧ walletToCp w' = walletToCp w - c := by
  refine ⟨_, deductCurrency_eq_some w c h, ?_⟩
  show (walletToCp w - c) / 100 * 100 + ((walletToCp w - c) % 100) / 10 * 10 +
      ((walletToCp w - c) % 100) % 10 = walletToCp w - c
  have h1 := Int.emod_add_ediv (walletToCp w - c) 100
  have h2 := Int.emod_add_ediv ((walletToCp w - c) % 100) 10
  omega

theorem firstHit_eq_none {α : Type} (f : Nat → Option α) (start count : Nat) :
    firstHit f start count = none ↔
      ∀ i, start ≤ i → i < start + count → f i = none := by
  induction count generalizing start with
  | zero => simp [firstHit]; omega
  | succ n ih =>
    unfold firstHit
    cases hf : f start with
    | some a =>
      simp only [reduceCtorEq, false_iff, not_forall]
      exact ⟨start, le_refl _, by omega, by simp [hf]⟩
    | none =>
      rw [ih]
      constructor
      · intro h i hi1 hi2
        rcases Nat.eq_or_lt_of_le hi1 with rfl | hlt
        · exact hf
        · exact h i hlt (by omega)
      · intro h i hi1 hi2
        exact h i (by omega) (by omega)

theorem firstHit_eq_some {α : Type} (f : Nat → Option α) (start count : Nat)
    (a : α) (h : firstHit f start count = some a) :
    ∃ i, start ≤ i ∧ i < start + count ∧ f i = some a ∧
      ∀ j, start ≤ j → j < i → f j = none := by
  induction count generalizing start with
  | zero => simp [firstHit] at h
  | succ n ih =>
    unfold firstHit at h
    cases hf : f start with
    | some b =>
      rw [hf] at h
      refine ⟨start, le_refl _, by omega, ?_, ?_⟩
      · rw [hf]; exact h
      · intro j hj1 hj2; omega
    | none =>
      rw [hf] at h
      obtain ⟨i, hi1, hi2, hi3, hi4⟩ := ih (start + 1) h
      refine ⟨i, by omega, by omega, hi3, ?_⟩
      intro j hj1 hj2
      rcases Nat.eq_or_lt_of_le hj1 with rfl | hlt
      · exact hf
      · exact hi4 j hlt hj2

theorem firstHit_isSome {α : Type} (f : Nat → Option α) (start count i : Nat)
    (hi1 : start ≤ i) (hi2 : i < start + count) (hf : (f i).isSome) :
    (firstHit f start count).isSome := by
  induction count generalizing start with
  | zero => omega
  | succ n ih =>
    unfold firstHit
    cases hs : f start with
    | some a => simp
    | none =>
      rcases Nat.eq_or_lt_of_le hi1 with rfl | hlt
      · rw [hs] at hf; simp at hf
      · exact ih (start + 1) hlt (by omega)

theorem slotOk_bounds {existingItems : List Item} {item : Item}
    {gridWidth gridHeight : Nat} {x y : Int}
    (hw : 1 ≤ item.w) (hh : 1 ≤ item.h)
    (h : slotOk existingItems item gridWidth gridHeight x y = true) :
    0 ≤ x ∧ x < (gridWidth : Int) ∧ 0 ≤ y ∧ y < (gridHeight : Int) := by
  simp only [slotOk, fits, outOfBounds, Bool.and_eq_true, Bool.not_eq_true',
    Bool.or_eq_false_iff, decide_eq_false_iff_not, not_lt] at h
  omega

theorem findFirstAvailableSlot_some {existingItems : List Item} {item : Item}
    {gridWidth gridHeight : Nat} {x y : Int}
    (hw : 1 ≤ item.w) (hh : 1 ≤ item.h)
    (h : findFirstAvailableSlot existingItems item gridWidth gridHeight = some (x, y)) :
    slotOk existingItems item gridWidth gridHeight x y = true ∧
      ∀ x' y', slotOk existingItems item gridWidth gridHeight x' y' = true →
        y < y' ∨ (y = y' ∧ x ≤ x') := by
  unfold findFirstAvailableSlot at h
  obtain ⟨yi, -, hyiH, hyi, hybefore⟩ := firstHit_eq_some _ _ _ _ h
  obtain ⟨xi, -, hxiW, hxi, hxbefore⟩ := firstHit_eq_some _ _ _ _ hyi
  rw [apply_ite (· = some (x, y))] at hxi
  split at hxi
  case isFalse => simp at hxi
  case isTrue hok =>
  rw [Option.some.injEq, Prod.mk.injEq] at hxi
  obtain ⟨rfl, rfl⟩ := hxi
  refine ⟨hok, ?_⟩
  intro x' y' h'
  obtain ⟨hx0, hxW, hy0, hyH⟩ := slotOk_bounds hw hh h'
  -- `(y', x')` is a scanned cell; compare its scan position with `(yi, xi)`.
  have hy' : (y'.toNat : Int) = y' := Int.toNat_of_nonneg hy0
  have hx' : (x'.toNat : Int) = x' := Int.toNat_of_nonneg hx0
  rcases lt_trichotomy y'.toNat yi with hlt | heq | hgt
  · exfalso
    have hrow := hybefore y'.toNat (Nat.zero_le _) hlt
    rw [firstHit_eq_none] at hrow
    have hnone := hrow x'.toNat (Nat.zero_le _) (by omega)
    rw [hy', hx', if_pos h'] at hnone
    exact Option.noConfusion hnone
  · right
    refine ⟨by omega, ?_⟩
    by_contra hxx
    push_neg at hxx
    have hxlt : x'.toNat < xi := by omega
    have hnone := hxbefore x'.toNat (Nat.zero_le _) hxlt
    rw [hx'] at hnone
    have hyy : (yi : Int) = y' := by omega
    rw [hyy, if_pos h'] at hnone
    exact Option.noConfusion hnone
  · left; omega

theorem findFirstAvailableSlot_none {existingItems : List Item} {item : Item}
    {gridWidth gridHeight : Nat}
    (hw : 1 ≤ item.w) (hh : 1 ≤ item.h) :
    findFirstAvailableSlot existingItems item gridWidth gridHeight = none ↔
      ∀ x y : Int, slotOk existingItems item gridWidth gridHeight x y ≠ true := by
  constructor
  · intro h x y hok
    obtain ⟨hx0, hxW, hy0, hyH⟩ := slotOk_bounds hw hh hok
    have hy' : (y.toNat : Int) = y := Int.toNat_of_nonneg hy0
    have hx' : (x.toNat : Int) = x := Int.toNat_of_nonneg hx0
    have hsome : (findFirstAvailableSlot existingItems item gridWidth gridHeight).isSome := by
      unfold findFirstAvailableSlot
      refine firstHit_isSome _ 0 gridHeight y.toNat (Nat.zero_le _) (by omega) ?_
      refine firstHit_isSome _ 0 gridWidth x.toNat (Nat.zero_le _) (by omega) ?_
      rw [hx', hy', if_pos hok]
      rfl
    rw [h] at hsome
    simp at hsome
  · intro h
    cases hres : findFirstAvailableSlot existingItems item gridWidth gridHeight with
    | none => rfl
    | some p =>
      obtain ⟨x, y⟩ := p
      exact absurd (findFirstAvailableSlot_some hw hh hres).1 (h x y)

/-- C5 counterexample: the claim's concrete example
`deduct({gp:0,sp:1,cp:5}, 20) = {gp:0,sp:0,cp:0}` is false — that wallet
totals 15 cp, which is below the cost of 20, so the code refuses the
deduction and returns null. -/
theorem claim_c5_counterexample :
    deductCurrency ⟨0, 1, 5⟩ 20 ≠ some ⟨0, 0, 0⟩ ∧
    deductCurrency ⟨0, 1, 5⟩ 20 = none := by decide

/-- C5 (amended): for every wallet of non-negative integers `{gp,sp,cp}`
and every cost `c` in copper, `deductCurrency` returns `none` exactly when
`gp*100 + sp*10 + cp < c`; otherwise, with `r` the remainder, it returns
the canonical breakdown `{gp: r / 100, sp: (r % 100) / 10, cp: r % 10}`.
In particular `deduct({gp:0,sp:2,cp:0}, 20) = {gp:0,sp:0,cp:0}` (exact
funds) and `deduct({gp:0,sp:0,cp:5}, 20) = none`. -/
theorem claim_c5_deduct :
    (∀ gp sp cp c : Int, 0 ≤ gp → 0 ≤ sp → 0 ≤ cp →
      (deductCurrency ⟨gp, sp, cp⟩ c = none ↔ gp * 100 + sp * 10 + cp < c) ∧
      (¬ gp * 100 + sp * 10 + cp < c →
        deductCurrency ⟨gp, sp, cp⟩ c =
          some ⟨(gp * 100 + sp * 10 + cp - c) / 100,
            ((gp * 100 + sp * 10 + cp - c) % 100) / 10,
            (gp * 100 + sp * 10 + cp - c) % 10⟩)) ∧
    deductCurrency ⟨0, 2, 0⟩ 20 = some ⟨0, 0, 0⟩ ∧
    deductCurrency ⟨0, 0, 5⟩ 20 = none := by
  refine ⟨?_, by decide, by decide⟩
  intro gp sp cp c _ _ _
  have hW : walletToCp ⟨gp, sp, cp⟩ = gp * 100 + sp * 10 + cp := rfl
  constructor
  · rw [deductCurrency_eq_none_iff, hW]
  · intro h
    rw [deductCurrency_eq_some _ _ (by rw [hW]; exact h), hW]
    have hm : (gp * 100 + sp * 10 + cp - c) % 100 % 10 =
        (gp * 100 + sp * 10 + cp - c) % 10 :=
      Int.emod_emod_of_dvd _ (by norm_num)
    rw [hm]

/-- C5 witness: an instance with both hypotheses discharged. -/
theorem claim_c5_deduct_witness :
    deductCurrency ⟨0, 1, 5⟩ 10 =
      some ⟨(0 * 100 + 1 * 10 + 5 - 10) / 100, ((0 * 100 + 1 * 10 + 5 - 10) % 100) / 10,
        (0 * 100 + 1 * 10 + 5 - 10) % 10⟩ :=
  (claim_c5_deduct.1 0 1 5 10 (by decide) (by decide) (by decide)).2 (by decide)

/-- C6: deduction preserves value — for every non-negative wallet and every
cost `c ≤ toCopper(w)`, `toCopper(deduct(w,c)) = toCopper(w) - c`; adding
`c` back in copper restores the original copper-equivalent total, and
re-deducting `c` again yields the same copper total as the first deduction,
even though the breakdown may be re-canonicalized. -/
theorem claim_c6_value_preservation :
    ∀ (w : Wallet) (c : Int), 0 ≤ w.gp → 0 ≤ w.sp → 0 ≤ w.cp → c ≤ walletToCp w →
      ∃ w', deductCurrency w c = some w' ∧
        walletToCp w' = walletToCp w - c ∧
        walletToCp (addCp w' c) = walletToCp w ∧
        ∃ w'', deductCurrency (addCp w' c) c = some w'' ∧
          walletToCp w'' = walletToCp w - c := by
  intro w c _ _ _ hc
  obtain ⟨w', hw', hval⟩ := walletToCp_deduct w c (by omega)
  have haddVal : walletToCp (addCp w' c) = walletToCp w' + c := by
    simp only [walletToCp, addCp]
    ring
  obtain ⟨w'', hw'', hval''⟩ := walletToCp_deduct (addCp w' c) c (by omega)
  exact ⟨w', hw', hval, by omega, w'', hw'', by omega⟩

/-- C6 witness: a wallet holding non-minimal denominations, deducted,
refunded and re-deducted. -/
theorem claim_c6_value_preservation_witness :
    ∃ w', deductCurrency ⟨0, 15, 0⟩ 20 = some w' ∧
      walletToCp w' = walletToCp ⟨0, 15, 0⟩ - 20 ∧
      walletToCp (addCp w' 20) = walletToCp ⟨0, 15, 0⟩ ∧
      ∃ w'', deductCurrency (addCp w' 20) 20 = some w'' ∧
        walletToCp w'' = walletToCp ⟨0, 15, 0⟩ - 20 :=
  claim_c6_value_preservation ⟨0, 15, 0⟩ 20 (by decide) (by decide) (by decide) (by decide)

theorem deduct_components_nonneg (w : Wallet) (c : Int) (w' : Wallet)
    (h : deductCurrency w c = some w') : 0 ≤ w'.gp ∧ 0 ≤ w'.sp ∧ 0 ≤ w'.cp := by
  rw [deductCurrency_def] at h
  split at h
  · exact absurd h (by simp)
  · rename_i hge
    injection h with h
    subst h
    have hr : 0 ≤ walletToCp w - c := by omega
    refine ⟨Int.ediv_nonneg hr (by norm_num), ?_, ?_⟩
    · exact Int.ediv_nonneg (Int.emod_nonneg _ (by norm_num)) (by norm_num)
    · exact Int.emod_nonneg _ (by norm_num)

theorem wallets_docWritesStack (invs : Invs) (pid : String) :
    ((docWritesStack invs pid).map docWriteWallets).flatten = [] := by
  unfold docWritesStack
  cases lookupA invs pid with
  | none => rfl
  | some inv =>
    simp only [List.map_cons, List.map_map, List.flatten_cons, docWriteWallets]
    rw [List.nil_append, List.flatten_eq_nil_iff]
    intro l hl
    obtain ⟨c, -, rfl⟩ := List.mem_map.mp hl
    rfl

theorem wallets_docWritesMove (invs : Invs) (pid : String) :
    ((docWritesMove invs pid).map docWriteWallets).flatten = [] := by
  unfold docWritesMove
  cases lookupA invs pid with
  | none => rfl
  | some inv =>
    simp only [List.map_cons, List.map_map, List.flatten_cons, docWriteWallets]
    rw [List.nil_append, List.flatten_eq_nil_iff]
    intro l hl
    obtain ⟨c, -, rfl⟩ := List.mem_map.mp hl
    rfl

theorem requestsWallets_append (rs ss : List Issued) :
    requestsWallets (rs ++ ss) = requestsWallets rs ++ requestsWallets ss := by
  unfold requestsWallets
  rw [List.map_append, List.flatten_append]

theorem wallets_stack_batch (invs2 : Invs) (s e : String) :
    requestsWallets
      [Issued.batch (docWritesStack invs2 s ++
        (if s = e then [] else docWritesStack invs2 e))] = [] := by
  simp only [requestsWallets, List.map_cons, List.map_nil, List.flatten_cons,
    List.flatten_nil, List.append_nil, issuedWallets]
  rw [List.map_append, List.flatten_append, wallets_docWritesStack, List.nil_append]
  split
  · rfl
  · exact wallets_docWritesStack invs2 e

theorem wallets_move_batch (invs2 : Invs) (s e : String) :
    requestsWallets
      [Issued.batch (docWritesMove invs2 s ++
        (if s = e then [] else docWritesMove invs2 e))] = [] := by
  simp only [requestsWallets, List.map_cons, List.map_nil, List.flatten_cons,
    List.flatten_nil, List.append_nil, issuedWallets]
  rw [List.map_append, List.flatten_append, wallets_docWritesMove, List.nil_append]
  split
  · rfl
  · exact wallets_docWritesMove invs2 e

theorem requestsWallets_stackBranch (invs : Invs) (a : DragArgs) (passive : Item) :
    requestsWallets (stackBranch invs a passive).requests = [] := by
  simp only [stackBranch]
  split
  · rfl
  · exact wallets_stack_batch _ _ _

theorem requestsWallets_moveBranch (invs : Invs) (a : DragArgs) (walletReqs : List Issued) :
    requestsWallets (moveBranch invs a walletReqs).requests = requestsWallets walletReqs := by
  simp only [moveBranch]
  split
  · split
    · rfl
    · split
      · rfl
      · split
        · rfl
        · rw [requestsWallets_append, wallets_move_batch, List.append_nil]
  · rfl

theorem purchaseGate_wallets (invs : Invs) (a : DragArgs) (walletReqs : List Issued)
    (h : purchaseGate invs a = some walletReqs) :
    ∀ w ∈ requestsWallets walletReqs, ∃ pw c, deductCurrency pw c = some w := by
  simp only [purchaseGate] at h
  split at h
  · split at h
    · split at h
      · split at h
        · exact absurd h (by simp)
        · rename_i w' hd
          injection h with h
          subst h
          intro w hw
          simp only [requestsWallets, issuedWallets, docWriteWallets, List.map_cons,
            List.map_nil, List.flatten_cons, List.flatten_nil, List.append_nil,
            List.mem_singleton] at hw
          subst hw
          exact ⟨_, _, hd⟩
      · injection h with h
        subst h
        intro w hw
        exact absurd hw (by simp [requestsWallets])
    · injection h with h
      subst h
      intro w hw
      exact absurd hw (by simp [requestsWallets])
  · injection h with h
    subst h
    intro w hw
    exact absurd hw (by simp [requestsWallets])

/-- C9: wallet components never go negative — the deduction routine either
refuses (`none`) or produces a wallet whose three components are
non-negative; the wallet dialog's save handler rejects negative values
before persisting; and every wallet value the drag coordinator ever writes
(its only wallet writes are purchase deductions) is component-wise
non-negative. -/
theorem claim_c9_wallet_nonneg :
    (∀ (w : Wallet) (c : Int) (w' : Wallet), deductCurrency w c = some w' →
      0 ≤ w'.gp ∧ 0 ≤ w'.sp ∧ 0 ≤ w'.cp) ∧
    (∀ (gp sp cp : Int) (w' : Wallet), handleSaveWallet gp sp cp = some w' →
      0 ≤ w'.gp ∧ 0 ≤ w'.sp ∧ 0 ≤ w'.cp) ∧
    (∀ (invs : Invs) (a : DragArgs) (w : Wallet),
      w ∈ requestsWallets (handleDragEndRun invs a).requests →
      0 ≤ w.gp ∧ 0 ≤ w.sp ∧ 0 ≤ w.cp) := by
  refine ⟨deduct_components_nonneg, ?_, ?_⟩
  · intro gp sp cp w' h
    unfold handleSaveWallet at h
    split at h
    · exact absurd h (by simp)
    · rename_i hng
      injection h with h
      subst h
      push_neg at hng
      exact ⟨hng.1, hng.2.1, hng.2.2⟩
  · intro invs a w hw
    unfold handleDragEndRun at hw
    split at hw
    · rw [requestsWallets_stackBranch] at hw
      exact absurd hw (List.not_mem_nil w)
    · split at hw
      · exact absurd hw (by simp [requestsWallets])
      · rename_i walletReqs hpg
        rw [requestsWallets_moveBranch] at hw
        obtain ⟨pw, c, hd⟩ := purchaseGate_wallets invs a walletReqs hpg w hw
        exact deduct_components_nonneg pw c w hd

/-- C9 witness: a concrete deduction produces a non-negative wallet. -/
theorem claim_c9_wallet_nonneg_witness :
    0 ≤ (Wallet.mk 0 7 0).gp ∧ 0 ≤ (Wallet.mk 0 7 0).sp ∧ 0 ≤ (Wallet.mk 0 7 0).cp :=
  claim_c9_wallet_nonneg.1 ⟨1, 0, 0⟩ 30 ⟨0, 7, 0⟩ (by decide)

/-- C1: for every item with `w,h ≥ 1`, `findFirstAvailableSlot` returns a
valid origin that is lexicographically smallest in `(y,x)` — row-major scan
order, `y` outer from 0 — and returns `none` exactly when no valid origin
exists; concretely, in a 2×2 grid with a 1×1 item at `(0,0)`, a 1×1 search
returns `(1,0)`. -/
theorem claim_c1_findFirstSlot :
    (∀ (existingItems : List Item) (item : Item) (gridWidth gridHeight : Nat),
      1 ≤ item.w → 1 ≤ item.h →
      (∀ x y : Int,
        findFirstAvailableSlot existingItems item gridWidth gridHeight = some (x, y) →
        slotOk existingItems item gridWidth gridHeight x y = true ∧
        ∀ x' y' : Int, slotOk existingItems item gridWidth gridHeight x' y' = true →
          y < y' ∨ (y = y' ∧ x ≤ x')) ∧
      (findFirstAvailableSlot existingItems item gridWidth gridHeight = none ↔
        ∀ x y : Int, ¬ slotOk existingItems item gridWidth gridHeight x y = true)) ∧
    findFirstAvailableSlot [c1occupied] c1probe 2 2 = some (1, 0) := by
  refine ⟨?_, by decide⟩
  intro existingItems item gridWidth gridHeight hw hh
  exact ⟨fun x y h => findFirstAvailableSlot_some hw hh h,
    findFirstAvailableSlot_none hw hh⟩

/-- C1 witness: the general statement applied to the concrete 2×2 scenario,
with the size hypotheses discharged. -/
theorem claim_c1_findFirstSlot_witness :
    slotOk [c1occupied] c1probe 2 2 1 0 = true :=
  (((claim_c1_findFirstSlot.1 [c1occupied] c1probe 2 2 (by decide) (by decide)).1 1 0
    (by decide))).1

/-- C8: a pending trade record transitions to `active` only through
acceptance by its addressed invitee (`playerB` of a pending trade addressed
to them); declining deletes the record rather than storing a terminal
state; and the engine performs no other transition out of `pending`.
Stated over trade lists with distinct record ids (Firestore document ids
are unique). -/
theorem claim_c8_trade :
    ∀ (ts : Trades) (act : TradeAction) (ts' : Trades),
      (ts.map Trade.id).Nodup →
      tradeStep ts act = some ts' →
      (∀ uid tid, act = .accept uid tid →
        ∃ t, t ∈ ts ∧ t.id = tid ∧ t.status = .pending ∧ t.playerB = uid ∧
          ts' = ts.map fun t' => if t'.id = tid then { t' with status := .active } else t') ∧
      (∀ uid tid, act = .decline uid tid →
        ∃ t, t ∈ ts ∧ t.id = tid ∧ t.status = .pending ∧ t.playerB = uid ∧
          ts' = ts.filter fun t' => !(t'.id == tid)) ∧
      (∀ t ∈ ts, t.status = .pending → ∀ t' ∈ ts', t'.id = t.id →
        t'.status = .pending ∨ (t'.status = .active ∧ act = .accept t.playerB t.id)) := by
  intro ts act ts' hnodup hstep
  cases act with
  | accept uid tid =>
    simp only [tradeStep] at hstep
    rw [Option.map_eq_some'] at hstep
    obtain ⟨t0, hact, rfl⟩ := hstep
    unfold tradeActionable at hact
    split at hact
    case h_2 => exact absurd hact (by simp)
    case h_1 t1 hfind =>
      split at hact
      case isFalse => exact absurd hact (by simp)
      case isTrue hguard =>
        injection hact with hact
        subst hact
        have ht0mem : t1 ∈ ts := List.mem_of_find?_eq_some hfind
        have ht0id : t1.id = tid := by
          have := List.find?_some hfind
          simpa using this
        refine ⟨?_, ?_, ?_⟩
        · intro uid' tid' heq
          injection heq with h1 h2
          subst h1; subst h2
          exact ⟨t1, ht0mem, ht0id, hguard.1, hguard.2, rfl⟩
        · intro uid' tid' heq
          exact absurd heq (by simp)
        · intro t htmem htpend t' ht'mem ht'id
          obtain ⟨s, hsmem, rfl⟩ := List.mem_map.mp ht'mem
          by_cases hsid : s.id = tid
          · have hs_t : s = t := by
              refine List.inj_on_of_nodup_map hnodup hsmem htmem ?_
              have : (if s.id = tid then { s with status := TradeStatus.active } else s).id
                  = t.id := ht'id
              rw [if_pos hsid] at this
              exact this
            subst hs_t
            have ht_t0 : s = t1 :=
              List.inj_on_of_nodup_map hnodup hsmem ht0mem (by rw [hsid, ht0id])
            right
            rw [if_pos hsid]
            refine ⟨rfl, ?_⟩
            rw [ht_t0, hguard.2, ht0id]
          · rw [if_neg hsid] at ht'id ⊢
            have hs_t : s = t := List.inj_on_of_nodup_map hnodup hsmem htmem ht'id
            subst hs_t
            left
            exact htpend
  | decline uid tid =>
    simp only [tradeStep] at hstep
    rw [Option.map_eq_some'] at hstep
    obtain ⟨t0, hact, rfl⟩ := hstep
    unfold tradeActionable at hact
    split at hact
    case h_2 => exact absurd hact (by simp)
    case h_1 t1 hfind =>
      split at hact
      case isFalse => exact absurd hact (by simp)
      case isTrue hguard =>
        injection hact with hact
        subst hact
        have ht0mem : t1 ∈ ts := List.mem_of_find?_eq_some hfind
        have ht0id : t1.id = tid := by
          have := List.find?_some hfind
          simpa using this
        refine ⟨?_, ?_, ?_⟩
        · intro uid' tid' heq
          exact absurd heq (by simp)
        · intro uid' tid' heq
          injection heq with h1 h2
          subst h1; subst h2
          exact ⟨t1, ht0mem, ht0id, hguard.1, hguard.2, rfl⟩
        · intro t htmem htpend t' ht'mem ht'id
          have := List.mem_filter.mp ht'mem
          have hs_t : t' = t := List.inj_on_of_nodup_map hnodup this.1 htmem ht'id
          subst hs_t
          left
          exact htpend

/-- C8 witness: Bob accepts Alice's pending invitation addressed to him, and
the record becomes active. -/
theorem claim_c8_trade_witness :
    ∃ t, t ∈ [Trade.mk "t1" "camp" "alice" "bob" .pending] ∧ t.id = "t1" ∧
      t.status = .pending ∧ t.playerB = "bob" ∧
      [Trade.mk "t1" "camp" "alice" "bob" .active] =
        [Trade.mk "t1" "camp" "alice" "bob" .pending].map fun t' =>
          if t'.id = "t1" then { t' with status := TradeStatus.active } else t' :=
  (claim_c8_trade [Trade.mk "t1" "camp" "alice" "bob" .pending] (.accept "bob" "t1")
    [Trade.mk "t1" "camp" "alice" "bob" .active] (by decide) (by decide)).1 "bob" "t1" rfl

theorem takeWhile_append_all {p : Char → Bool} (xs ys : List Char)
    (h : ∀ x ∈ xs, p x = true) :
    (xs ++ ys).takeWhile p = xs ++ ys.takeWhile p := by
  induction xs with
  | nil => rfl
  | cons a t ih =>
    rw [List.cons_append, List.takeWhile_cons, if_pos (h a (List.mem_cons_self a t)),
      ih fun x hx => h x (List.mem_cons_of_mem a hx), List.cons_append]

theorem dropWhile_append_all {p : Char → Bool} (xs ys : List Char)
    (h : ∀ x ∈ xs, p x = true) :
    (xs ++ ys).dropWhile p = ys.dropWhile p := by
  induction xs with
  | nil => rfl
  | cons a t ih =>
    rw [List.cons_append, List.dropWhile_cons, if_pos (h a (List.mem_cons_self a t)),
      ih fun x hx => h x (List.mem_cons_of_mem a hx)]

theorem space_not_digit {c : Char} (h : jsIsSpace c = true) : c.isDigit = false := by
  simp only [jsIsSpace, Bool.or_eq_true, decide_eq_true_eq] at h
  rcases h with ⟨⟨⟨⟨rfl | rfl⟩ | rfl⟩ | rfl⟩ | rfl⟩ | rfl <;> decide

theorem drop_takeWhile_length (p : Char → Bool) (l : List Char) :
    l.drop (l.takeWhile p).length = l.dropWhile p := by
  induction l with
  | nil => rfl
  | cons a t ih =>
    rw [List.takeWhile_cons, List.dropWhile_cons]
    split
    · rw [List.length_cons, List.drop_succ_cons]
      exact ih
    · rfl

theorem matchAt_sound (l : List Char) (v : Nat) (r : Int) (h : matchAt l = some (v, r)) :
    ∃ ds ws u rest, l = ds ++ ws ++ u ++ rest ∧ ds ≠ [] ∧
      (∀ c ∈ ds, c.isDigit = true) ∧ (∀ c ∈ ws, jsIsSpace c = true) ∧
      ((u = ['g', 'p'] ∧ r = 100) ∨ (u = ['s', 'p'] ∧ r = 10) ∨ (u = ['c', 'p'] ∧ r = 1)) ∧
      v = digitsToNat ds := by
  simp only [matchAt] at h
  split at h
  · exact absurd h (by simp)
  · rename_i hne
    refine ⟨l.takeWhile Char.isDigit,
      (l.dropWhile Char.isDigit).takeWhile jsIsSpace,
      ((l.dropWhile Char.isDigit).dropWhile jsIsSpace).take 2,
      ((l.dropWhile Char.isDigit).dropWhile jsIsSpace).drop 2, ?_, ?_, ?_, ?_, ?_, ?_⟩
    · have h1 := List.takeWhile_append_dropWhile (p := Char.isDigit) (l := l)
      have h2 := List.takeWhile_append_dropWhile (p := jsIsSpace)
        (l := l.dropWhile Char.isDigit)
      have h3 := List.take_append_drop 2 ((l.dropWhile Char.isDigit).dropWhile jsIsSpace)
      rw [← h2] at h1
      rw [← h3] at h1
      simp only [List.append_assoc]
      exact h1.symm
    · intro heq
      rw [← List.isEmpty_iff] at heq
      exact absurd heq hne
    · exact fun c hc => List.mem_takeWhile_imp hc
    · exact fun c hc => List.mem_takeWhile_imp hc
    · -- identify which unit matched, rewriting the `drop (takeWhile).length`
      -- of the source into the `dropWhile` used above
      rw [drop_takeWhile_length] at h
      split at h
      · rename_i hu
        injection h with h
        rw [Prod.mk.injEq] at h
        exact Or.inl ⟨hu, h.2.symm⟩
      · split at h
        · rename_i hu
          injection h with h
          rw [Prod.mk.injEq] at h
          exact Or.inr (Or.inl ⟨hu, h.2.symm⟩)
        · split at h
          · rename_i hu
            injection h with h
            rw [Prod.mk.injEq] at h
            exact Or.inr (Or.inr ⟨hu, h.2.symm⟩)
          · exact absurd h (by simp)
    · rw [drop_takeWhile_length] at h
      split at h
      · injection h with h
        rw [Prod.mk.injEq] at h
        exact h.1.symm
      · split at h
        · injection h with h
          rw [Prod.mk.injEq] at h
          exact h.1.symm
        · split at h
          · injection h with h
            rw [Prod.mk.injEq] at h
            exact h.1.symm
          · exact absurd h (by simp)

theorem matchAt_complete (ds ws u rest : List Char) (hds : ds ≠ [])
    (hdig : ∀ c ∈ ds, c.isDigit = true) (hws : ∀ c ∈ ws, jsIsSpace c = true)
    (hu : u = ['g', 'p'] ∨ u = ['s', 'p'] ∨ u = ['c', 'p']) :
    (matchAt (ds ++ ws ++ u ++ rest)).isSome := by
  have huhead : ∃ u0 u1, u = [u0, u1] ∧ u0.isDigit = false ∧ jsIsSpace u0 = false := by
    rcases hu with rfl | rfl | rfl
    · exact ⟨'g', 'p', rfl, by decide, by decide⟩
    · exact ⟨'s', 'p', rfl, by decide, by decide⟩
    · exact ⟨'c', 'p', rfl, by decide, by decide⟩
  obtain ⟨u0, u1, hu01, hu0d, hu0s⟩ := huhead
  have htw : (ds ++ ws ++ u ++ rest).takeWhile Char.isDigit = ds := by
    rw [List.append_assoc, List.append_assoc, takeWhile_append_all _ _ hdig]
    have : (ws ++ (u ++ rest)).takeWhile Char.isDigit = [] := by
      cases ws with
      | nil =>
        rw [List.nil_append, hu01, List.cons_append, List.takeWhile_cons, if_neg (by simp [hu0d])]
      | cons w wt =>
        rw [List.cons_append, List.takeWhile_cons,
          if_neg (by simp [space_not_digit (hws w (List.mem_cons_self w wt))])]
    rw [this, List.append_nil]
  have hdrop : (ds ++ ws ++ u ++ rest).drop ds.length = ws ++ u ++ rest := by
    rw [List.append_assoc, List.append_assoc, List.drop_left, ← List.append_assoc]
  have hdw : (ws ++ u ++ rest).dropWhile jsIsSpace = u ++ rest := by
    rw [List.append_assoc, dropWhile_append_all _ _ hws, hu01, List.cons_append,
      List.dropWhile_cons, if_neg (by simp [hu0s])]
  have htk : (u ++ rest).take 2 = u := by
    have h2 : u.length = 2 := by rw [hu01]; rfl
    rw [← h2]
    exact List.take_left u rest
  simp only [matchAt, htw]
  rw [if_neg (by simpa [List.isEmpty_iff] using hds), hdrop, hdw, htk]
  rcases hu with rfl | rfl | rfl
  · rw [if_pos rfl]; rfl
  · rw [if_neg (by decide), if_pos rfl]; rfl
  · rw [if_neg (by decide), if_neg (by decide), if_pos rfl]; rfl

theorem scanFirst_sound (l : List Char) (v : Nat) (r : Int) (h : scanFirst l = some (v, r)) :
    ∃ pre ds ws u rest, l = pre ++ ds ++ ws ++ u ++ rest ∧ ds ≠ [] ∧
      (∀ c ∈ ds, c.isDigit = true) ∧ (∀ c ∈ ws, jsIsSpace c = true) ∧
      ((u = ['g', 'p'] ∧ r = 100) ∨ (u = ['s', 'p'] ∧ r = 10) ∨ (u = ['c', 'p'] ∧ r = 1)) ∧
      v = digitsToNat ds := by
  induction l with
  | nil => simp [scanFirst] at h
  | cons c cs ih =>
    rw [scanFirst] at h
    cases hm : matchAt (c :: cs) with
    | some p =>
      rw [hm] at h
      injection h with h
      subst h
      obtain ⟨ds, ws, u, rest, hl, hds, hdig, hws, hu, hv⟩ := matchAt_sound _ _ _ hm
      exact ⟨[], ds, ws, u, rest, by rw [List.nil_append]; exact hl, hds, hdig, hws, hu, hv⟩
    | none =>
      rw [hm] at h
      obtain ⟨pre, ds, ws, u, rest, hl, hds, hdig, hws, hu, hv⟩ := ih h
      refine ⟨c :: pre, ds, ws, u, rest, ?_, hds, hdig, hws, hu, hv⟩
      subst hl
      simp [List.append_assoc]

theorem scanFirst_complete (l : List Char) (h : HasCostToken l) : (scanFirst l).isSome := by
  obtain ⟨pre, ds, ws, u, rest, rfl, hds, hdig, hws, hu⟩ := h
  induction pre with
  | nil =>
    rw [List.nil_append]
    have hms := matchAt_complete ds ws u rest hds hdig hws hu
    cases ds with
    | nil => exact absurd rfl hds
    | cons d dt =>
      simp only [List.cons_append, List.append_assoc] at hms ⊢
      rw [scanFirst]
      obtain ⟨p, hp⟩ := Option.isSome_iff_exists.mp hms
      rw [hp]
      rfl
  | cons c pt ih =>
    simp only [List.cons_append, List.append_assoc] at ih ⊢
    rw [scanFirst]
    cases hm : matchAt (c :: (pt ++ (ds ++ (ws ++ (u ++ rest))))) with
    | some p => rfl
    | none => exact ih

/-- C7: `parseCostToCp` matches an integer followed by a unit `gp`, `sp` or
`cp` — case-insensitively (the input is lowercased) and tolerating
whitespace between number and unit — and returns that integer multiplied by
100, 10 or 1; for absent input or any string containing no such match it
returns 0.  In particular `parseCost("15 SP") = 150` and
`parseCost("") = 0`. -/
theorem claim_c7_parseCost :
    (∀ s : String, s ≠ "" →
      (¬ HasCostToken (normalizeCost s) → parseCostToCp (some s) = 0) ∧
      (HasCostToken (normalizeCost s) → (scanFirst (normalizeCost s)).isSome) ∧
      (∀ (v : Nat) (r : Int), scanFirst (normalizeCost s) = some (v, r) →
        parseCostToCp (some s) = (v : Int) * r ∧
        ∃ pre ds ws u rest, normalizeCost s = pre ++ ds ++ ws ++ u ++ rest ∧ ds ≠ [] ∧
          (∀ c ∈ ds, c.isDigit = true) ∧ (∀ c ∈ ws, jsIsSpace c = true) ∧
          ((u = ['g', 'p'] ∧ r = 100) ∨ (u = ['s', 'p'] ∧ r = 10) ∨
            (u = ['c', 'p'] ∧ r = 1)) ∧
          v = digitsToNat ds)) ∧
    parseCostToCp (some "15 SP") = 150 ∧ parseCostToCp (some "") = 0 ∧
    parseCostToCp none = 0 := by
  refine ⟨?_, by decide, by decide, by decide⟩
  intro s hs
  have hdef : parseCostToCp (some s) =
      match scanFirst (normalizeCost s) with
      | none => 0
      | some (v, r) => (v : Int) * r := by
    simp only [parseCostToCp, if_neg hs]
  refine ⟨?_, fun h => scanFirst_complete _ h, ?_⟩
  · intro hno
    rw [hdef]
    cases hscan : scanFirst (normalizeCost s) with
    | none => rfl
    | some p =>
      obtain ⟨v, r⟩ := p
      obtain ⟨pre, ds, ws, u, rest, hl, hds, hdig, hws, hu, -⟩ :=
        scanFirst_sound _ _ _ hscan
      refine absurd ⟨pre, ds, ws, u, rest, hl, hds, hdig, hws, ?_⟩ hno
      rcases hu with ⟨h, -⟩ | ⟨h, -⟩ | ⟨h, -⟩
      · exact Or.inl h
      · exact Or.inr (Or.inl h)
      · exact Or.inr (Or.inr h)
  · intro v r hscan
    refine ⟨?_, scanFirst_sound _ v r hscan⟩
    rw [hdef, hscan]

/-- C7 witness: the "15 SP" example through the general statement. -/
theorem claim_c7_parseCost_witness :
    parseCostToCp (some "15 SP") = ((15 : Nat) : Int) * 10 :=
  ((claim_c7_parseCost.1 "15 SP" (by decide)).2.2 15 10 (by decide)).1

theorem equip_rollback (invs : Invs) (item : Item) (pid src cid : String) :
    (handleEquipItemRun invs item pid src cid).rolledBack = invs ∧
      ((handleEquipItemRun invs item pid src cid).kind = .ran →
        (handleEquipItemRun invs item pid src cid).surfaced = true) := by
  simp only [handleEquipItemRun]
  repeat' split
  all_goals refine ⟨rfl, fun h => ?_⟩
  all_goals first | rfl | simp at h

theorem unequip_rollback (invs : Invs) (item : Item) (pid : String) :
    (handleUnequipItemRun invs item pid).rolledBack = invs ∧
      ((handleUnequipItemRun invs item pid).kind = .ran →
        (handleUnequipItemRun invs item pid).surfaced = true) := by
  simp only [handleUnequipItemRun]
  repeat' split
  all_goals refine ⟨rfl, fun h => ?_⟩
  all_goals first | rfl | simp at h

theorem stackBranch_rollback (invs : Invs) (a : DragArgs) (passive : Item) :
    (stackBranch invs a passive).rolledBack = invs ∧
      ((stackBranch invs a passive).kind = .ran →
        (stackBranch invs a passive).surfaced = true) := by
  simp only [stackBranch]
  repeat' split
  all_goals refine ⟨rfl, fun h => ?_⟩
  all_goals first | rfl | simp at h

theorem moveBranch_rollback (invs : Invs) (a : DragArgs) (walletReqs : List Issued) :
    (moveBranch invs a walletReqs).rolledBack = invs ∧
      ((moveBranch invs a walletReqs).kind = .ran →
        (moveBranch invs a walletReqs).surfaced = true) := by
  simp only [moveBranch]
  repeat' split
  all_goals refine ⟨rfl, fun h => ?_⟩
  all_goals first | rfl | simp at h

theorem dragEnd_rollback (invs : Invs) (a : DragArgs) :
    (handleDragEndRun invs a).rolledBack = invs ∧
      ((handleDragEndRun invs a).kind = .ran →
        (handleDragEndRun invs a).surfaced = true) := by
  simp only [handleDragEndRun]
  split
  · exact stackBranch_rollback invs a _
  · split
    · exact ⟨rfl, fun h => by simp at h⟩
    · exact moveBranch_rollback invs a _

theorem addItemCreate_rollback (invs : Invs) (itemData : Item) (pid : String)
    (isTargetDM : Bool) :
    (handleAddItemCreateRun invs itemData pid isTargetDM).rolledBack = invs ∧
      ((handleAddItemCreateRun invs itemData pid isTargetDM).kind = .ran →
        (handleAddItemCreateRun invs itemData pid isTargetDM).surfaced = true) := by
  simp only [handleAddItemCreateRun]
  repeat' split
  all_goals refine ⟨rfl, fun h => ?_⟩
  all_goals first | rfl | simp at h

theorem duplicate_rollback (invs : Invs) (item : Item) (pid : String) (isPlayerDM : Bool)
    (newId : String) :
    (handleDuplicateItemRun invs item pid isPlayerDM newId).rolledBack = invs ∧
      ((handleDuplicateItemRun invs item pid isPlayerDM newId).kind = .ran →
        (handleDuplicateItemRun invs item pid isPlayerDM newId).surfaced = true) := by
  simp only [handleDuplicateItemRun]
  repeat' split
  all_goals refine ⟨rfl, fun h => ?_⟩
  all_goals first | rfl | simp at h

theorem send_rollback (invs : Invs) (item : Item) (src tgt : String) :
    (handleSendItemRun invs item src tgt).rolledBack = invs ∧
      ((handleSendItemRun invs item src tgt).kind = .ran →
        (handleSendItemRun invs item src tgt).surfaced = true) := by
  simp only [handleSendItemRun]
  repeat' split
  all_goals refine ⟨rfl, fun h => ?_⟩
  all_goals first | rfl | simp at h

theorem rotate_no_optimistic_apply (invs : Invs) (item : Item) (pid cid : String) :
    (handleRotateItemRun invs item pid cid).applied = invs ∧
      (handleRotateItemRun invs item pid cid).rolledBack = invs ∧
      (handleRotateItemRun invs item pid cid).surfaced = false := by
  simp only [handleRotateItemRun]
  repeat' split
  all_goals exact ⟨rfl, rfl, rfl⟩

theorem splitStack_no_optimistic_apply (invs : Invs) (item : Item) (pid cid : String)
    (amount : Int) (newId : String) :
    (handleSplitStackRun invs item pid cid amount newId).applied = invs ∧
      (handleSplitStackRun invs item pid cid amount newId).rolledBack = invs ∧
      (handleSplitStackRun invs item pid cid amount newId).surfaced = false := by
  simp only [handleSplitStackRun]
  repeat' split
  all_goals exact ⟨rfl, rfl, rfl⟩

theorem claim_c4_counterexample :
    (handleRotateItemRun c4invs c4item "p1" "bag").kind = .ran ∧
    (handleRotateItemRun c4invs c4item "p1" "bag").requests ≠ [] ∧
    (handleRotateItemRun c4invs c4item "p1" "bag").applied = c4invs ∧
    (handleRotateItemRun c4invs c4item "p1" "bag").surfaced = false := by decide

/-- C4 (amended): for move, equip, unequip, stack, add (creation),
duplicate and send, a persistence failure after the optimistic apply
restores the local state to exactly the pre-operation state and surfaces
the failure; rotate and split, however, perform no optimistic apply at all
(local state is only changed by the store's change stream) and issue their
write without a failure handler, so the local state trivially remains the
pre-operation state but the failure is not surfaced. -/
theorem claim_c4_rollback :
    (∀ (invs : Invs) (item : Item) (pid src cid : String),
      (handleEquipItemRun invs item pid src cid).kind = .ran →
      (handleEquipItemRun invs item pid src cid).rolledBack = invs ∧
      (handleEquipItemRun invs item pid src cid).surfaced = true) ∧
    (∀ (invs : Invs) (item : Item) (pid : String),
      (handleUnequipItemRun invs item pid).kind = .ran →
      (handleUnequipItemRun invs item pid).rolledBack = invs ∧
      (handleUnequipItemRun invs item pid).surfaced = true) ∧
    (∀ (invs : Invs) (a : DragArgs),
      (handleDragEndRun invs a).kind = .ran →
      (handleDragEndRun invs a).rolledBack = invs ∧
      (handleDragEndRun invs a).surfaced = true) ∧
    (∀ (invs : Invs) (itemData : Item) (pid : String) (isTargetDM : Bool),
      (handleAddItemCreateRun invs itemData pid isTargetDM).kind = .ran →
      (handleAddItemCreateRun invs itemData pid isTargetDM).rolledBack = invs ∧
      (handleAddItemCreateRun invs itemData pid isTargetDM).surfaced = true) ∧
    (∀ (invs : Invs) (item : Item) (pid : String) (isPlayerDM : Bool) (newId : String),
      (handleDuplicateItemRun invs item pid isPlayerDM newId).kind = .ran →
      (handleDuplicateItemRun invs item pid isPlayerDM newId).rolledBack = invs ∧
      (handleDuplicateItemRun invs item pid isPlayerDM newId).surfaced = true) ∧
    (∀ (invs : Invs) (item : Item) (src tgt : String),
      (handleSendItemRun invs item src tgt).kind = .ran →
      (handleSendItemRun invs item src tgt).rolledBack = invs ∧
      (handleSendItemRun invs item src tgt).surfaced = true) ∧
    (∀ (invs : Invs) (item : Item) (pid cid : String),
      (handleRotateItemRun invs item pid cid).applied = invs ∧
      (handleRotateItemRun invs item pid cid).rolledBack = invs ∧
      (handleRotateItemRun invs item pid cid).surfaced = false) ∧
    (∀ (invs : Invs) (item : Item) (pid cid : String) (amount : Int) (newId : String),
      (handleSplitStackRun invs item pid cid amount newId).applied = invs ∧
      (handleSplitStackRun invs item pid cid amount newId).rolledBack = invs ∧
      (handleSplitStackRun invs item pid cid amount newId).surfaced = false) := by
  refine ⟨?_, ?_, ?_, ?_, ?_, ?_, ?_, ?_⟩
  · intro invs item pid src cid h
    obtain ⟨h1, h2⟩ := equip_rollback invs item pid src cid
    exact ⟨h1, h2 h⟩
  · intro invs item pid h
    obtain ⟨h1, h2⟩ := unequip_rollback invs item pid
    exact ⟨h1, h2 h⟩
  · intro invs a h
    obtain ⟨h1, h2⟩ := dragEnd_rollback invs a
    exact ⟨h1, h2 h⟩
  · intro invs itemData pid isTargetDM h
    obtain ⟨h1, h2⟩ := addItemCreate_rollback invs itemData pid isTargetDM
    exact ⟨h1, h2 h⟩
  · intro invs item pid isPlayerDM newId h
    obtain ⟨h1, h2⟩ := duplicate_rollback invs item pid isPlayerDM newId
    exact ⟨h1, h2 h⟩
  · intro invs item src tgt h
    obtain ⟨h1, h2⟩ := send_rollback invs item src tgt
    exact ⟨h1, h2 h⟩
  · exact rotate_no_optimistic_apply
  · exact splitStack_no_optimistic_apply

/-- C4 witness: a concrete equip that reaches persistence, with the
hypothesis discharged. -/
theorem claim_c4_rollback_witness :
    (handleEquipItemRun
        [("p1", ⟨"Radagast", false, ⟨0, 0, 0⟩, [c4item], [], []⟩)]
        c4item "p1" "tray" "bag").rolledBack =
      [("p1", ⟨"Radagast", false, ⟨0, 0, 0⟩, [c4item], [], []⟩)] ∧
    (handleEquipItemRun
        [("p1", ⟨"Radagast", false, ⟨0, 0, 0⟩, [c4item], [], []⟩)]
        c4item "p1" "tray" "bag").surfaced = true :=
  claim_c4_rollback.1 [("p1", ⟨"Radagast", false, ⟨0, 0, 0⟩, [c4item], [], []⟩)]
    c4item "p1" "tray" "bag" (by decide)

theorem issuedWallets_move_batch (invs2 : Invs) (s e : String) :
    issuedWallets
      (Issued.batch (docWritesMove invs2 s ++
        (if s = e then [] else docWritesMove invs2 e))) = [] := by
  have h := wallets_move_batch invs2 s e
  simpa [requestsWallets] using h

theorem wallets_append_writes (as bs : List DocWrite)
    (ha : (as.map docWriteWallets).flatten = []) (hb : (bs.map docWriteWallets).flatten = []) :
    issuedWallets (Issued.batch (as ++ bs)) = [] := by
  simp only [issuedWallets]
  rw [List.map_append, List.flatten_append, ha, hb]
  rfl

theorem moveBranch_requests (invs : Invs) (a : DragArgs) (walletReqs : List Issued) :
    ∃ rest, (moveBranch invs a walletReqs).requests = walletReqs ++ rest ∧
      ∀ r ∈ rest, issuedWallets r = [] := by
  simp only [moveBranch]
  repeat' split
  all_goals first
    | exact ⟨[], (List.append_nil walletReqs).symm, by simp⟩
    | (refine ⟨_, rfl, fun r hr => ?_⟩
       rw [List.mem_singleton] at hr
       subst hr
       exact wallets_append_writes _ _ (wallets_docWritesMove _ _) rfl)
    | (refine ⟨_, rfl, fun r hr => ?_⟩
       rw [List.mem_singleton] at hr
       subst hr
       exact wallets_append_writes _ _ (wallets_docWritesMove _ _) (wallets_docWritesMove _ _))

/-- C3 counterexample: in a concrete affordable purchase the coordinator
issues *two* independent requests — the wallet deduction as its own
single-document write, then the item batch — rather than one atomic
multi-document write; when the wallet write succeeds and the batch fails,
the remote state has the buyer charged (wallet 0gp 5sp 0cp) without the
item, while the merchant still holds it. -/
theorem claim_c3_counterexample :
    c3run.kind = .ran ∧
    c3run.requests.length = 2 ∧
    c3run.requests.head? = some (Issued.single (DocWrite.currency "b" ⟨0, 5, 0⟩)) ∧
    (lookupA c3remote "b").map (·.currency) = some ⟨0, 5, 0⟩ ∧
    (lookupA c3remote "b").map (fun inv => findItem inv.trayItems "sword") = some none ∧
    (lookupA c3remote "m").map (fun inv => (findItem inv.trayItems "sword").isSome) =
      some true := by decide

/-- C3 (amended): when the drag source is a merchant inventory, the
destination belongs to a different owner, and the item's cost parses to a
positive copper amount, an insufficient wallet aborts the entire move with
an affordability error and no state change or write; a sufficient wallet
has its deduction issued as a separate single-document write *before* and
independently of the item-transfer batch (which itself contains no wallet
write), so the purchase is not atomic and an item-batch failure can leave
the buyer charged without the item. -/
theorem claim_c3_purchase :
    ∀ (invs : Invs) (a : DragArgs),
      stackMergeCheck a.item a.overItem = none →
      (lookupA invs a.startPlayerId).map (·.isMerchant) = some true →
      a.startPlayerId ≠ a.endPlayerId →
      0 < parseCostToCp a.item.cost →
      (deductCurrency (((lookupA invs a.endPlayerId).map (·.currency)).getD ⟨0, 0, 0⟩)
          (parseCostToCp a.item.cost) = none →
        handleDragEndRun invs a = ⟨.precondError, invs, invs, false, []⟩) ∧
      (∀ w', deductCurrency (((lookupA invs a.endPlayerId).map (·.currency)).getD ⟨0, 0, 0⟩)
          (parseCostToCp a.item.cost) = some w' →
        ∃ rest, (handleDragEndRun invs a).requests =
            Issued.single (DocWrite.currency a.endPlayerId w') :: rest ∧
          ∀ r ∈ rest, issuedWallets r = []) := by
  intro invs a hstack hmerch hneq hcost
  rw [Option.map_eq_some'] at hmerch
  obtain ⟨sinv, hs, hsm⟩ := hmerch
  have hpg : purchaseGate invs a =
      match deductCurrency (((lookupA invs a.endPlayerId).map (·.currency)).getD ⟨0, 0, 0⟩)
        (parseCostToCp a.item.cost) with
      | none => none
      | some newWallet => some [Issued.single (DocWrite.currency a.endPlayerId newWallet)] := by
    simp only [purchaseGate, hs]
    rw [if_pos ⟨by rw [hsm], hneq⟩, if_pos hcost]
  constructor
  · intro hded
    simp only [handleDragEndRun, hstack]
    rw [hpg, hded]
  · intro w' hded
    have hrun : handleDragEndRun invs a =
        moveBranch invs a [Issued.single (DocWrite.currency a.endPlayerId w')] := by
      simp only [handleDragEndRun, hstack]
      rw [hpg, hded]
    rw [hrun]
    obtain ⟨rest, hreq, hrest⟩ :=
      moveBranch_requests invs a [Issued.single (DocWrite.currency a.endPlayerId w')]
    exact ⟨rest, by rw [hreq]; rfl, hrest⟩

/-- C3 witness: the concrete affordable purchase through the amended
statement. -/
theorem claim_c3_purchase_witness :
    ∃ rest, (handleDragEndRun c3invs c3args).requests =
        Issued.single (DocWrite.currency "b" ⟨0, 5, 0⟩) :: rest ∧
      ∀ r ∈ rest, issuedWallets r = [] :=
  (claim_c3_purchase c3invs c3args (by decide) (by decide) (by decide) (by decide)).2
    ⟨0, 5, 0⟩ (by decide)

theorem lookupA_modifyInv (invs : Invs) (p q : String) (f : Inventory → Inventory) :
    lookupA (modifyInv invs p f) q =
      if q = p then (lookupA invs q).map f else lookupA invs q := by
  induction invs with
  | nil =>
    simp only [lookupA, modifyInv, List.map_nil, List.find?_nil, Option.map_none']
    split <;> rfl
  | cons hd t ih =>
    obtain ⟨k, inv⟩ := hd
    by_cases hkq : k = q
    · subst hkq
      by_cases hkp : k = p
      · subst hkp
        simp only [lookupA, modifyInv, List.map_cons, if_pos rfl]
        rw [List.find?_cons_of_pos _ (by simp), List.find?_cons_of_pos _ (by simp)]
        simp
      · simp only [lookupA, modifyInv, List.map_cons, if_neg hkp]
        rw [List.find?_cons_of_pos _ (by simp), List.find?_cons_of_pos _ (by simp)]
    · by_cases hkp : k = p
      · subst hkp
        simp only [lookupA, modifyInv, List.map_cons, if_pos rfl]
        rw [List.find?_cons_of_neg _ (by simp [hkq]), List.find?_cons_of_neg _ (by simp [hkq])]
        simp only [lookupA, modifyInv] at ih
        exact ih
      · simp only [lookupA, modifyInv, List.map_cons, if_neg hkp]
        rw [List.find?_cons_of_neg _ (by simp [hkq]), List.find?_cons_of_neg _ (by simp [hkq])]
        simp only [lookupA, modifyInv] at ih
        exact ih

theorem currency_modifyInv (invs : Invs) (p q : String) (f : Inventory → Inventory)
    (hf : ∀ inv, (f inv).currency = inv.currency) :
    (lookupA (modifyInv invs p f) q).map (·.currency) =
      (lookupA invs q).map (·.currency) := by
  rw [lookupA_modifyInv]
  split
  · cases lookupA invs q with
    | none => rfl
    | some inv => simp [hf]
  · rfl

theorem currency_removeFromStart (invs : Invs) (a : DragArgs) (movedItem : Item)
    (invs1 : Invs) (h : removeFromStart invs a = some (movedItem, invs1)) :
    ∀ q, (lookupA invs1 q).map (·.currency) = (lookupA invs q).map (·.currency) := by
  simp only [removeFromStart] at h
  repeat' split at h
  all_goals first
    | exact Option.noConfusion h
    | (obtain ⟨it, hfind, heq⟩ := Option.map_eq_some'.mp h
       simp only [Prod.mk.injEq] at heq
       obtain ⟨-, heq⟩ := heq
       subst heq
       intro q
       exact currency_modifyInv invs _ q _ fun inv => rfl)

theorem currency_pushBack (invs : Invs) (a : DragArgs) (movedItem : Item) :
    ∀ q, (lookupA (pushBackToSourceTray invs a movedItem) q).map (·.currency) =
      (lookupA invs q).map (·.currency) := by
  intro q
  refine currency_modifyInv invs _ q _ fun inv => ?_
  split
  · rfl
  · rfl

theorem currency_placeAtEnd (invs : Invs) (a : DragArgs) (movedItem : Item)
    (invs2 : Invs) (h : placeAtEnd invs a movedItem = some invs2) :
    ∀ q, (lookupA invs2 q).map (·.currency) = (lookupA invs q).map (·.currency) := by
  simp only [placeAtEnd] at h
  repeat' split at h
  all_goals first
    | exact Option.noConfusion h
    | (injection h with h
       subst h
       intro q
       first
         | exact currency_modifyInv invs _ q _ fun inv => rfl
         | exact currency_pushBack invs a movedItem q)

/-- C10: dragging an item from a merchant inventory to a different owner
whose cost parses to 0 (absent or unparsable cost string) performs no
deduction and no affordability check: the move proceeds, the buyer's local
wallet (indeed every wallet) is unchanged, and no wallet write is issued —
so the transfer succeeds even when the buyer's wallet is empty. -/
theorem claim_c10_free_purchase :
    ∀ (invs : Invs) (a : DragArgs) (movedItem : Item) (invs1 invs2 : Invs),
      stackMergeCheck a.item a.overItem = none →
      (lookupA invs a.startPlayerId).map (·.isMerchant) = some true →
      a.startPlayerId ≠ a.endPlayerId →
      parseCostToCp a.item.cost = 0 →
      (lookupA invs a.endPlayerId).isSome →
      ¬(a.endPlayerId = "public-loot" ∧ ¬a.viewerIsDM = true) →
      removeFromStart invs a = some (movedItem, invs1) →
      placeAtEnd invs1 a movedItem = some invs2 →
      (handleDragEndRun invs a).kind = .ran ∧
      (handleDragEndRun invs a).applied = invs2 ∧
      requestsWallets (handleDragEndRun invs a).requests = [] ∧
      ∀ pid, (lookupA (handleDragEndRun invs a).applied pid).map (·.currency) =
        (lookupA invs pid).map (·.currency) := by
  intro invs a movedItem invs1 invs2 hstack hmerch hneq hcost hend hguard hrm hplace
  rw [Option.map_eq_some'] at hmerch
  obtain ⟨sinv, hs, hsm⟩ := hmerch
  obtain ⟨einv, he⟩ := Option.isSome_iff_exists.mp hend
  have hpg : purchaseGate invs a = some [] := by
    simp only [purchaseGate, hs]
    rw [if_pos ⟨by rw [hsm], hneq⟩, if_neg (by rw [hcost]; exact lt_irrefl 0)]
  have hmb : handleDragEndRun invs a = moveBranch invs a [] := by
    simp only [handleDragEndRun, hstack]
    rw [hpg]
  have hmove : moveBranch invs a [] =
      RunResult.mk .ran invs2 invs true
        [Issued.batch
          (docWritesMove invs2 a.startPlayerId ++
            (if a.startPlayerId = a.endPlayerId then []
             else docWritesMove invs2 a.endPlayerId))] := by
    simp only [moveBranch, hs, he, hrm, hplace]
    rw [if_neg hguard, List.nil_append]
  refine ⟨?_, ?_, ?_, ?_⟩
  · rw [hmb, hmove]
  · rw [hmb, hmove]
  · rw [hmb, requestsWallets_moveBranch]
    rfl
  · intro pid
    rw [hmb, hmove]
    exact (currency_placeAtEnd invs1 a movedItem invs2 hplace pid).trans
      (currency_removeFromStart invs a movedItem invs1 hrm pid)

/-- C10 witness: an item with no cost dragged from the merchant to a buyer
whose wallet is empty; the transfer completes and no wallet is written. -/
theorem claim_c10_free_purchase_witness :
    (handleDragEndRun c10invs c10args).kind = .ran ∧
    (handleDragEndRun c10invs c10args).applied = c10invs2 ∧
    requestsWallets (handleDragEndRun c10invs c10args).requests = [] :=
  have h := claim_c10_free_purchase c10invs c10args c10item c10invs1 c10invs2
    (by decide) (by decide) (by decide) (by decide) (by decide) (by decide)
    (by decide) (by decide)
  ⟨h.1, h.2.1, h.2.2.1⟩

theorem findItem_updateFirst_self (l : List Item) (iid : String) (f : Item → Item)
    (hid : ∀ i, (f i).id = i.id) :
    findItem (updateFirst l iid f) iid = (findItem l iid).map f := by
  induction l with
  | nil => rfl
  | cons i t ih =>
    simp only [updateFirst]
    by_cases hi : i.id = iid
    · rw [if_pos hi]
      unfold findItem
      rw [List.find?_cons_of_pos _ (by simp [hid i, hi]),
        List.find?_cons_of_pos _ (by simp [hi])]
      rfl
    · rw [if_neg hi]
      unfold findItem
      rw [List.find?_cons_of_neg _ (by simp [hi]), List.find?_cons_of_neg _ (by simp [hi])]
      exact ih

theorem findItem_updateFirst_other (l : List Item) (iid jid : String) (f : Item → Item)
    (hid : ∀ i, (f i).id = i.id) (hne : jid ≠ iid) :
    findItem (updateFirst l iid f) jid = findItem l jid := by
  induction l with
  | nil => rfl
  | cons i t ih =>
    simp only [updateFirst]
    by_cases hi : i.id = iid
    · rw [if_pos hi]
      by_cases hj : i.id = jid
      · exact absurd (hj ▸ hi) hne
      · unfold findItem
        rw [List.find?_cons_of_neg _ (by simp [hid i, hj]),
          List.find?_cons_of_neg _ (by simp [hj])]
    · rw [if_neg hi]
      by_cases hj : i.id = jid
      · unfold findItem
        rw [List.find?_cons_of_pos _ (by simp [hj]), List.find?_cons_of_pos _ (by simp [hj])]
      · unfold findItem
        rw [List.find?_cons_of_neg _ (by simp [hj]), List.find?_cons_of_neg _ (by simp [hj])]
        exact ih

theorem findItem_removeAll_self (l : List Item) (iid : String) :
    findItem (removeAll l iid) iid = none := by
  induction l with
  | nil => rfl
  | cons i t ih =>
    simp only [removeAll, List.filter_cons]
    by_cases hi : i.id = iid
    · rw [if_neg (by simp [hi])]
      exact ih
    · rw [if_pos (by simp [hi])]
      unfold findItem
      rw [List.find?_cons_of_neg _ (by simp [hi])]
      exact ih

theorem findItem_removeAll_other (l : List Item) (iid jid : String) (hne : jid ≠ iid) :
    findItem (removeAll l iid) jid = findItem l jid := by
  induction l with
  | nil => rfl
  | cons i t ih =>
    simp only [removeAll, List.filter_cons]
    by_cases hi : i.id = iid
    · rw [if_neg (by simp [hi])]
      have hj : ¬ i.id = jid := fun h => hne (h ▸ hi)
      rw [show findItem (i :: t) jid = findItem t jid from ?_]
      · exact ih
      · unfold findItem
        rw [List.find?_cons_of_neg _ (by simp [hj])]
    · rw [if_pos (by simp [hi])]
      by_cases hj : i.id = jid
      · unfold findItem
        rw [List.find?_cons_of_pos _ (by simp [hj]), List.find?_cons_of_pos _ (by simp [hj])]
      · unfold findItem
        rw [List.find?_cons_of_neg _ (by simp [hj]), List.find?_cons_of_neg _ (by simp [hj])]
        exact ih

theorem lookupC_updateC (cs : List Container) (cid cid' : String) (g : Container → Container)
    (hid : ∀ c, (g c).id = c.id) :
    lookupC (updateC cs cid g) cid' =
      if cid' = cid then (lookupC cs cid').map g else lookupC cs cid' := by
  induction cs with
  | nil =>
    simp only [lookupC, updateC, List.map_nil, List.find?_nil, Option.map_none']
    split <;> rfl
  | cons c t ih =>
    simp only [updateC, List.map_cons]
    by_cases hc' : c.id = cid'
    · by_cases hc : c.id = cid
      · rw [if_pos hc]
        have : cid' = cid := by rw [← hc', hc]
        rw [if_pos this]
        unfold lookupC
        rw [List.find?_cons_of_pos _ (by simp [hid c, hc']),
          List.find?_cons_of_pos _ (by simp [hc'])]
        rfl
      · rw [if_neg hc]
        have : ¬ cid' = cid := fun h => hc (hc'.symm ▸ h ▸ rfl)
        rw [if_neg this]
        unfold lookupC
        rw [List.find?_cons_of_pos _ (by simp [hc']), List.find?_cons_of_pos _ (by simp [hc'])]
    · by_cases hc : c.id = cid
      · rw [if_pos hc]
        unfold lookupC
        rw [List.find?_cons_of_neg _ (by simp [hid c, hc']),
          List.find?_cons_of_neg _ (by simp [hc'])]
        simp only [lookupC, updateC] at ih
        exact ih
      · rw [if_neg hc]
        unfold lookupC
        rw [List.find?_cons_of_neg _ (by simp [hc']), List.find?_cons_of_neg _ (by simp [hc'])]
        simp only [lookupC, updateC] at ih
        exact ih

/-- The stacking branch's start-side and end-side updates have literally the
same dispatch structure. -/
theorem stackApplyToEnd_eq_start : @stackApplyToEnd = @stackApplyToStart := rfl

theorem stackLocList_apply_self (invs : Invs) (pid cid dest : String)
    (g : List Item → List Item) :
    stackLocList (stackApplyToEnd invs pid cid dest g) pid cid dest =
      (stackLocList invs pid cid dest).map g := by
  unfold stackLocList stackApplyToEnd
  rw [lookupA_modifyInv, if_pos rfl]
  cases hA : lookupA invs pid with
  | none => rfl
  | some inv =>
    simp only [Option.map_some', Option.some_bind]
    by_cases hd : dest = "grid"
    · simp only [if_pos hd, modifyContainer]
      rw [lookupC_updateC _ _ _ _ (by intro c; rfl), if_pos rfl]
      cases lookupC inv.containers cid <;> rfl
    · by_cases hdm : inv.characterName = "DM"
      · simp only [if_neg hd, modifyContainer, if_pos hdm]
        rw [lookupC_updateC _ _ _ _ (by intro c; rfl), if_pos rfl]
        cases lookupC inv.containers cid <;> rfl
      · simp only [if_neg hd, modifyContainer, if_neg hdm]
        rfl

theorem findAtLoc_apply_frame (invs : Invs) (pid cid dest : String)
    (g : List Item → List Item) (pid' cid' dest' iid : String)
    (hg : ∀ l, findItem (g l) iid = findItem l iid) :
    findAtLoc (stackApplyToEnd invs pid cid dest g) pid' cid' dest' iid =
      findAtLoc invs pid' cid' dest' iid := by
  unfold findAtLoc stackLocList stackApplyToEnd
  rw [lookupA_modifyInv]
  by_cases hp : pid' = pid
  · rw [if_pos hp]
    cases hA : lookupA invs pid' with
    | none => rfl
    | some inv =>
      simp only [Option.map_some', Option.some_bind]
      by_cases hd : dest = "grid"
      · by_cases hd' : dest' = "grid"
        · simp only [if_pos hd, if_pos hd', modifyContainer]
          rw [lookupC_updateC _ _ _ _ (by intro c; rfl)]
          split
          · cases lookupC inv.containers cid' with
            | none => rfl
            | some c =>
              simp only [Option.map_some', Option.some_bind]
              exact hg c.gridItems
          · rfl
        · by_cases hdm : inv.characterName = "DM"
          · simp only [if_pos hd, if_neg hd', modifyContainer, if_pos hdm]
            rw [lookupC_updateC _ _ _ _ (by intro c; rfl)]
            split
            · cases lookupC inv.containers cid' <;> rfl
            · rfl
          · simp only [if_pos hd, if_neg hd', modifyContainer, if_neg hdm]
      · by_cases hdm : inv.characterName = "DM"
        · by_cases hd' : dest' = "grid"
          · simp only [if_neg hd, if_pos hd', modifyContainer, if_pos hdm]
            rw [lookupC_updateC _ _ _ _ (by intro c; rfl)]
            split
            · cases lookupC inv.containers cid' <;> rfl
            · rfl
          · simp only [if_neg hd, if_neg hd', modifyContainer, if_pos hdm]
            rw [lookupC_updateC _ _ _ _ (by intro c; rfl)]
            split
            · cases lookupC inv.containers cid' with
              | none => rfl
              | some c =>
                simp only [Option.map_some', Option.some_bind]
                exact hg c.trayItems
            · rfl
        · by_cases hd' : dest' = "grid"
          · simp only [if_neg hd, if_pos hd', modifyContainer, if_neg hdm]
          · simp only [if_neg hd, if_neg hd', modifyContainer, if_neg hdm,
              Option.some_bind]
            exact hg inv.trayItems
  · rw [if_neg hp]

/-- C2 counterexample: an item whose own `stackable` flag is `false` is
dropped onto a stackable item of the same name and type, and the two merge
anyway (3 arrows transfer; the source stack is consumed) — the code checks
only the *target's* `stackable` flag, so "both items are stackable" is not
required. -/
theorem claim_c2_counterexample :
    c2src.stackable = false ∧
    (handleDragEndRun c2invs c2args).kind = .ran ∧
    findAtLoc (handleDragEndRun c2invs c2args).applied "p2" "tray" "tray" "i2" =
      some { c2tgt with quantity := 8 } ∧
    findAtLoc (handleDragEndRun c2invs c2args).applied "p1" "tray" "tray" "i1" = none := by
  decide

/-- C2 (amended): when an item is dropped onto another item, the two merge
only if the items are distinct instances, the *target* is stackable, and
they share name and type (the source's own `stackable` flag is not
consulted); the merge transfers
`transferred = min(source.quantity, maxStack - target.quantity)` with
`maxStack` defaulting to 20.  If `transferred ≤ 0` the operation fails with
a stack-full error and no state changes; otherwise the target's quantity
increases by `transferred` (never exceeding `maxStack`), and the source
item is removed entirely when `source.quantity - transferred ≤ 0`, else its
quantity is reduced by `transferred` in place, keeping its container/tray
location and its other fields (including position). -/
theorem claim_c2_stacking :
    ∀ (invs : Invs) (a : DragArgs) (passive : Item),
      a.overItem = some passive →
      a.item.id ≠ passive.id →
      passive.stackable = true →
      a.item.name = passive.name →
      a.item.type = passive.type →
      (stackAmount a.item passive ≤ 0 →
        handleDragEndRun invs a = ⟨.precondError, invs, invs, false, []⟩) ∧
      (0 < stackAmount a.item passive →
        (handleDragEndRun invs a).kind = .ran ∧
        (∀ tgtIt,
          findAtLoc invs a.endPlayerId a.endContainerId a.endDestination passive.id =
            some tgtIt →
          findAtLoc (handleDragEndRun invs a).applied a.endPlayerId a.endContainerId
              a.endDestination passive.id =
            some { tgtIt with quantity := tgtIt.quantity + stackAmount a.item passive } ∧
          (tgtIt.quantity = passive.quantity →
            tgtIt.quantity + stackAmount a.item passive ≤ jsOrInt passive.maxStack 20)) ∧
        (a.item.quantity - stackAmount a.item passive ≤ 0 →
          findAtLoc (handleDragEndRun invs a).applied a.startPlayerId a.startContainerId
            a.startSource a.item.id = none) ∧
        (0 < a.item.quantity - stackAmount a.item passive →
          ∀ srcIt,
            findAtLoc invs a.startPlayerId a.startContainerId a.startSource a.item.id =
              some srcIt →
            findAtLoc (handleDragEndRun invs a).applied a.startPlayerId a.startContainerId
                a.startSource a.item.id =
              some { srcIt with quantity :=
                a.item.quantity - stackAmount a.item passive })) := by
  intro invs a passive hover hid hstk hname htype
  have hsm : stackMergeCheck a.item a.overItem = some passive := by
    rw [hover]
    simp only [stackMergeCheck]
    rw [if_pos ⟨hid, hstk, hname, htype⟩]
  have hrun : handleDragEndRun invs a = stackBranch invs a passive := by
    simp only [handleDragEndRun, hsm]
  constructor
  · intro hle
    unfold stackAmount at hle
    rw [hrun]
    simp only [stackBranch]
    rw [if_pos hle]
  · intro hpos
    have hneg : ¬ min a.item.quantity (jsOrInt passive.maxStack 20 - passive.quantity) ≤ 0 := by
      unfold stackAmount at hpos
      omega
    have hkind : (stackBranch invs a passive).kind = .ran := by
      simp only [stackBranch]
      rw [if_neg hneg]
    have happ : (stackBranch invs a passive).applied =
        if a.item.quantity - stackAmount a.item passive ≤ 0 then
          stackApplyToStart
            (stackApplyToEnd invs a.endPlayerId a.endContainerId a.endDestination
              fun l => updateFirst l passive.id fun i =>
                { i with quantity := i.quantity + stackAmount a.item passive })
            a.startPlayerId a.startContainerId a.startSource
            fun l => removeAll l a.item.id
        else
          stackApplyToStart
            (stackApplyToEnd invs a.endPlayerId a.endContainerId a.endDestination
              fun l => updateFirst l passive.id fun i =>
                { i with quantity := i.quantity + stackAmount a.item passive })
            a.startPlayerId a.startContainerId a.startSource
            fun l => updateFirst l a.item.id fun i =>
              { i with quantity := a.item.quantity - stackAmount a.item passive } := by
      simp only [stackBranch]
      rw [if_neg hneg]
      rfl
    have hgEndFrame : ∀ l, findItem
        (updateFirst l passive.id fun i =>
          { i with quantity := i.quantity + stackAmount a.item passive }) a.item.id =
        findItem l a.item.id := fun l =>
      findItem_updateFirst_other l passive.id a.item.id _ (fun i => rfl) hid
    refine ⟨by rw [hrun]; exact hkind, ?_, ?_, ?_⟩
    · -- target side
      intro tgtIt htgt
      have hb3 : tgtIt.quantity = passive.quantity →
          tgtIt.quantity + stackAmount a.item passive ≤ jsOrInt passive.maxStack 20 := by
        intro hq
        have h1 : stackAmount a.item passive ≤
            jsOrInt passive.maxStack 20 - passive.quantity := min_le_right _ _
        omega
      refine ⟨?_, hb3⟩
      rw [hrun, happ]
      unfold findAtLoc at htgt
      rw [Option.bind_eq_some'] at htgt
      obtain ⟨endL, hendL, hfound⟩ := htgt
      have hfind : ∀ X,
          stackLocList X a.endPlayerId a.endContainerId a.endDestination = some endL →
          findAtLoc
            (stackApplyToEnd X a.endPlayerId a.endContainerId a.endDestination
              fun l => updateFirst l passive.id fun i =>
                { i with quantity := i.quantity + stackAmount a.item passive })
            a.endPlayerId a.endContainerId a.endDestination passive.id =
          some { tgtIt with quantity := tgtIt.quantity + stackAmount a.item passive } := by
        intro X hX
        unfold findAtLoc
        rw [stackLocList_apply_self, hX]
        simp only [Option.map_some', Option.some_bind]
        rw [findItem_updateFirst_self _ _ _ (by intro i; rfl), hfound]
        rfl
      split
      · rw [← stackApplyToEnd_eq_start]
        rw [findAtLoc_apply_frame _ _ _ _ _ _ _ _ _
          (fun l => findItem_removeAll_other l a.item.id passive.id fun h => hid h.symm)]
        exact hfind invs hendL
      · rw [← stackApplyToEnd_eq_start]
        rw [findAtLoc_apply_frame _ _ _ _ _ _ _ _ _
          (fun l => findItem_updateFirst_other l a.item.id passive.id _ (by intro i; rfl)
            fun h => hid h.symm)]
        exact hfind invs hendL
    · -- source removed entirely
      intro hrem
      rw [hrun, happ, if_pos hrem, ← stackApplyToEnd_eq_start]
      unfold findAtLoc
      rw [stackLocList_apply_self]
      cases stackLocList
          (stackApplyToEnd invs a.endPlayerId a.endContainerId a.endDestination
            fun l => updateFirst l passive.id fun i =>
              { i with quantity := i.quantity + stackAmount a.item passive })
          a.startPlayerId a.startContainerId a.startSource with
      | none => rfl
      | some l =>
        simp only [Option.map_some', Option.some_bind]
        exact findItem_removeAll_self l a.item.id
    · -- source reduced in place
      intro hrem srcIt hsrc
      rw [hrun, happ, if_neg (by omega), ← stackApplyToEnd_eq_start]
      have hXsrc : findAtLoc
          (stackApplyToEnd invs a.endPlayerId a.endContainerId a.endDestination
            fun l => updateFirst l passive.id fun i =>
              { i with quantity := i.quantity + stackAmount a.item passive })
          a.startPlayerId a.startContainerId a.startSource a.item.id = some srcIt := by
        rw [findAtLoc_apply_frame _ _ _ _ _ _ _ _ _ hgEndFrame]
        exact hsrc
      unfold findAtLoc at hXsrc ⊢
      rw [Option.bind_eq_some'] at hXsrc
      obtain ⟨startL, hstartL, hfound⟩ := hXsrc
      rw [stackLocList_apply_self, hstartL]
      simp only [Option.map_some', Option.some_bind]
      rw [findItem_updateFirst_self _ _ _ (by intro i; rfl), hfound]
      rfl

/-- C2 witness: a merge that fills the target to exactly `maxStack` and
leaves the source reduced in place — dropping 5 arrows onto a stack of 18
(maxStack 20) transfers 2, leaving 3. -/
theorem claim_c2_stacking_witness :
    findAtLoc
        (handleDragEndRun
          [("p1", ⟨"Ana", false, ⟨0, 0, 0⟩,
             [⟨"j1", "Arrow", "ammo", 1, 1, none, true, 5, none, none⟩], [], []⟩),
           ("p2", ⟨"Bo", false, ⟨0, 0, 0⟩,
             [⟨"j2", "Arrow", "ammo", 1, 1, none, true, 18, none, none⟩], [], []⟩)]
          ⟨⟨"j1", "Arrow", "ammo", 1, 1, none, true, 5, none, none⟩, "p1", "tray", "tray",
            "p2", "tray", "tray",
            some ⟨"j2", "Arrow", "ammo", 1, 1, none, true, 18, none, none⟩, (0, 0),
            false⟩).applied
        "p1" "tray" "tray" "j1" =
      some ⟨"j1", "Arrow", "ammo", 1, 1, none, true, 3, none, none⟩ := by
  have h := (claim_c2_stacking
    [("p1", ⟨"Ana", false, ⟨0, 0, 0⟩,
       [⟨"j1", "Arrow", "ammo", 1, 1, none, true, 5, none, none⟩], [], []⟩),
     ("p2", ⟨"Bo", false, ⟨0, 0, 0⟩,
       [⟨"j2", "Arrow", "ammo", 1, 1, none, true, 18, none, none⟩], [], []⟩)]
    ⟨⟨"j1", "Arrow", "ammo", 1, 1, none, true, 5, none, none⟩, "p1", "tray", "tray",
      "p2", "tray", "tray",
      some ⟨"j2", "Arrow", "ammo", 1, 1, none, true, 18, none, none⟩, (0, 0), false⟩
    ⟨"j2", "Arrow", "ammo", 1, 1, none, true, 18, none, none⟩
    rfl (by decide) rfl rfl rfl).2 (by decide)
  exact (h.2.2.2 (by decide)
    ⟨"j1", "Arrow", "ammo", 1, 1, none, true, 5, none, none⟩ (by decide))

end REInventory
